import Mathlib

/-!
# ApplyRFF: field schedule and frame synthesis

A shallow embedding of `src/vs4/applyrff4.cpp` (the VapourSynth `applyrff`
filter of d2vsource): `rffCreate` builds the flat list of field references
from the repeat/top-field-first flags of a D2V index, and `rffGetFrame`
turns the pair of entries `2n`, `2n+1` into output frame `n`.

Conventions of the embedding.

* `std::vector` is a `List`; `push_back` appends at the end; `operator[]`
  is `xs[i]?`, and a read outside the vector (undefined in the source) makes
  the enclosing function return `none` / `CreateResult.undefined`.
* `int` values that only count upwards from zero (`i`, `field.frame`, `n`)
  are `Nat`; `vi.numFrames` is an `Int`; the narrowing `(int)fields.size()`
  is `castInt`, which wraps modulo `2^32`.
* The flag masks of `gop.hpp` and the enum of `applyrff4.hpp` are not part of
  the translated file: the masks are the parameter `FlagBits`.
-/

namespace vs4

/-! ## Data model -/

/-- The kind of a schedule entry (`rffFieldType` of `applyrff4.hpp`). -/
inductive rffFieldType where
  | Top
  | Bottom
  | Progressive
  deriving DecidableEq, Repr

/-- One schedule entry (`rffField`): the coded picture it comes from and its kind. -/
structure rffField where
  frame : Nat
  type : rffFieldType
  deriving DecidableEq, Repr

/-- Entry of the D2V frame table: which group a coded picture belongs to and
where its flag byte sits inside that group. -/
structure frame where
  gop : Nat
  offset : Nat
  deriving DecidableEq, Repr

/-- A group of pictures: the sequence-level flag word and one flag byte per
coded picture. -/
structure gop where
  info : Nat
  flags : List Nat
  deriving DecidableEq, Repr

/-- The parsed D2V index, restricted to what `rffCreate` reads. -/
structure d2vcontext where
  gops : List gop
  frames : List frame
  mpeg_type : Int
  deriving DecidableEq, Repr

/-- The bit masks `FRAME_FLAG_RFF`, `FRAME_FLAG_TFF`, `FRAME_FLAG_PROGRESSIVE`
and `GOP_FLAG_PROGRESSIVE_SEQUENCE`, declared in a header outside the
translated file and therefore kept as a parameter. -/
structure FlagBits where
  FRAME_FLAG_RFF : Nat
  FRAME_FLAG_TFF : Nat
  FRAME_FLAG_PROGRESSIVE : Nat
  GOP_FLAG_PROGRESSIVE_SEQUENCE : Nat
  deriving DecidableEq, Repr

/-- The masks as DGIndex lays them out; used for the concrete inputs below. -/
def dgindexBits : FlagBits :=
  { FRAME_FLAG_RFF := 0x01
    FRAME_FLAG_TFF := 0x02
    FRAME_FLAG_PROGRESSIVE := 0x40
    GOP_FLAG_PROGRESSIVE_SEQUENCE := 0x200 }

/-- The four booleans computed at the top of the loop body of `rffCreate`. -/
structure PictureFlags where
  rff : Bool
  tff : Bool
  progressive_frame : Bool
  progressive_sequence : Bool
  deriving DecidableEq, Repr

/-- The part of `VSVideoFormat` the filter reads. -/
structure VSVideoFormat where
  numPlanes : Nat
  bytesPerSample : Nat
  deriving DecidableEq, Repr

/-- The part of `VSVideoInfo` the filter reads and writes. -/
structure VSVideoInfo where
  format : VSVideoFormat
  width : Nat
  height : Nat
  numFrames : Int
  deriving DecidableEq, Repr

/-- The private data of a filter instance (`rffData`). -/
structure rffData where
  d2v : d2vcontext
  vi : VSVideoInfo
  fields : List rffField
  deriving DecidableEq, Repr

/-- How a call of `rffCreate` ends: `createVideoFilter` is reached with the
instance data, or `mapSetError` reports a message and nothing is registered,
or a vector was read out of range. -/
inductive CreateResult where
  | registered (data : rffData)
  | error (msg : String)
  | undefined
  deriving DecidableEq, Repr

/-! ## The schedule builder (`rffCreate`) -/

/-- The statement `fields.push_back(x)`. -/
def push_back (fields : List rffField) (x : rffField) : List rffField :=
  fields ++ [x]

/-- The conversion `(int)n` of a `size_t`: reduction modulo `2^32` into the
range of a 32-bit signed integer. -/
def castInt (n : Nat) : Int :=
  if n % 2 ^ 32 < 2 ^ 31 then ((n % 2 ^ 32 : Nat) : Int)
  else ((n % 2 ^ 32 : Nat) : Int) - 2 ^ 32

/-- Lines 153-158: read the flags of coded picture `i`. -/
def readFlags (c : FlagBits) (d : d2vcontext) (i : Nat) : Option PictureFlags :=
  match d.frames[i]? with
  | none => none
  | some f =>
    match d.gops[f.gop]? with
    | none => none
    | some g =>
      match g.flags[f.offset]? with
      | none => none
      | some fl =>
        some
          { rff := (fl &&& c.FRAME_FLAG_RFF) != 0
            tff := (fl &&& c.FRAME_FLAG_TFF) != 0
            progressive_frame := (fl &&& c.FRAME_FLAG_PROGRESSIVE) != 0
            progressive_sequence := (g.info &&& c.GOP_FLAG_PROGRESSIVE_SEQUENCE) != 0 }

/-- The test of line 164-165: the picture is repeated as whole frames. -/
def progressiveMode (mpeg_type : Int) (p : PictureFlags) : Bool :=
  p.progressive_sequence || (p.progressive_frame && mpeg_type == 264)

/-- Lines 164-200: the entries pushed for coded picture `i`. -/
def appendFields (mpeg_type : Int) (i : Nat) (p : PictureFlags)
    (fields : List rffField) : List rffField :=
  if p.progressive_sequence || (p.progressive_frame && mpeg_type == 264) then
    let field : rffField := { frame := i, type := rffFieldType.Progressive }
    let fields := push_back fields field
    let fields := push_back fields field
    if p.rff then
      let fields := push_back fields field
      let fields := push_back fields field
      if p.tff then
        let fields := push_back fields field
        let fields := push_back fields field
        fields
      else fields
    else fields
  else
    let first_field : rffField :=
      { frame := i, type := if p.tff then rffFieldType.Top else rffFieldType.Bottom }
    let second_field : rffField :=
      { frame := i, type := if p.tff then rffFieldType.Bottom else rffFieldType.Top }
    let fields := push_back fields first_field
    let fields := push_back fields second_field
    if p.rff then push_back fields first_field else fields

/-- One pass through the loop body (lines 153-200) for picture `i`. -/
def rffBody (c : FlagBits) (d : d2vcontext) (i : Nat) (fields : List rffField) :
    Option (List rffField) :=
  match readFlags c d i with
  | none => none
  | some p => some (appendFields d.mpeg_type i p fields)

/-- The loop `for (i = ...; i < numFrames; i++)` of line 152, with `k`
iterations left, the counter at `i` and the schedule so far in `fields`. -/
def rffLoop (c : FlagBits) (d : d2vcontext) : Nat → Nat → List rffField → Option (List rffField)
  | 0, _, fields => some fields
  | k + 1, i, fields =>
    match rffBody c d i fields with
    | none => none
    | some fields1 => rffLoop c d k (i + 1) fields1

/-- The filter constructor.  `parsed` is what `d2vparse` returned (the index
or its error message) and `vi` the video info of the input clip. -/
def rffCreate (c : FlagBits) (parsed : Except String d2vcontext) (vi : VSVideoInfo) :
    CreateResult :=
  match parsed with
  | Except.error msg => CreateResult.error msg
  | Except.ok d =>
    match rffLoop c d vi.numFrames.toNat 0 [] with
    | none => CreateResult.undefined
    | some fields =>
      CreateResult.registered
        { d2v := d
          vi := { vi with numFrames := Int.tdiv (castInt fields.length) 2 }
          fields := fields }

/-! ## The frame synthesizer (`rffGetFrame`) -/

/-- The activation reasons a frame callback is invoked with. -/
inductive VSActivationReason where
  | arInitial
  | arAllFramesReady
  | arError
  deriving DecidableEq, Repr

/-- One plane of a frame: its size in samples and rows, the distance in
bytes between two rows, and the bytes behind `getReadPtr`/`getWritePtr`. -/
structure VSPlane where
  width : Nat
  height : Nat
  stride : Nat
  data : List Nat
  deriving DecidableEq, Repr

/-- A frame: its planes and its integer properties. -/
structure VSFrame where
  planes : List VSPlane
  props : List (String × Int)
  deriving DecidableEq, Repr

/-- The host calls `rffGetFrame` makes that act on something other than plane
bytes; source frames are named by their index in the input clip. -/
inductive VSCall where
  | requestFrameFilter (n : Nat)
  | getFrameFilter (n : Nat)
  | copyFrame (n : Nat)
  | newVideoFrame (propSrc : Nat)
  | mapSetInt (key : String) (value : Int)
  | freeFrame (n : Nat)
  deriving DecidableEq, Repr

/-- What one invocation of `rffGetFrame` did: the host calls in order and the
returned frame (`none` is the `NULL` return). -/
structure GetFrameResult where
  calls : List VSCall
  frame : Option VSFrame
  deriving DecidableEq, Repr

/-- A `const rffField *` into `d->fields`: the position it points at and the
entry found there. -/
structure rffFieldPtr where
  index : Nat
  target : rffField
  deriving DecidableEq, Repr

/-- Lines 44-47: the entries `2n` and `2n+1`, exchanged when the first one is
a bottom field.  The result is `(top_field, bottom_field)`. -/
def selectFields (d : rffData) (n : Nat) : Option (rffFieldPtr × rffFieldPtr) :=
  match d.fields[n * 2]?, d.fields[n * 2 + 1]? with
  | some a, some b =>
    let top_field : rffFieldPtr := { index := n * 2, target := a }
    let bottom_field : rffFieldPtr := { index := n * 2 + 1, target := b }
    if top_field.target.type = rffFieldType.Bottom then some (bottom_field, top_field)
    else some (top_field, bottom_field)
  | _, _ => none

/-- Plane `i` of a frame (an empty plane when the frame has no such plane). -/
def getPlane (f : VSFrame) (i : Nat) : VSPlane :=
  f.planes.getD i { width := 0, height := 0, stride := 0, data := [] }

/-- Replace the bytes of plane `i` (writing through `getWritePtr(f, i)`). -/
def setPlaneData (f : VSFrame) (i : Nat) (data : List Nat) : VSFrame :=
  { f with planes := f.planes.set i { getPlane f i with data := data } }

/-- Copy `n` bytes from offset `srcp` of `src` to offset `dstp` of `dst`.
Planes that hold `stride * height` bytes keep every access of the weave
inside the buffers; outside them a write is dropped and a read gives 0. -/
def memcpy (dst : List Nat) (dstp : Nat) (src : List Nat) (srcp : Nat) : Nat → List Nat
  | 0 => dst
  | n + 1 => (memcpy dst dstp src srcp n).set (dstp + n) (src.getD (srcp + n) 0)

/-- The strided block copy of the host (`vsh::bitblt`, a VapourSynth helper
outside this repository): `height` rows of `row_size` bytes, row `r` going
from `srcp + r * src_stride` to `dstp + r * dst_stride`. -/
def bitblt (dst : List Nat) (dstp dst_stride : Nat) (src : List Nat)
    (srcp src_stride row_size : Nat) : Nat → List Nat
  | 0 => dst
  | height + 1 =>
    memcpy (bitblt dst dstp dst_stride src srcp src_stride row_size height)
      (dstp + height * dst_stride) src (srcp + height * src_stride) row_size

/-- The host call `copyFrame`: a new frame with the same planes and properties. -/
def copyFrame (f : VSFrame) : VSFrame := f

/-- The host call `newVideoFrame`: `fresh` is the frame as allocated (geometry
of the output video, plane bytes not initialised), and the properties are
copied from `prop_src`. -/
def newVideoFrame (fresh prop_src : VSFrame) : VSFrame :=
  { planes := fresh.planes, props := prop_src.props }

/-- The host call `mapSetInt(props, key, value, maReplace)`. -/
def mapSetInt (props : List (String × Int)) (key : String) (value : Int) :
    List (String × Int) :=
  (key, value) :: props.filter (fun kv => kv.1 != key)

/-- Lines 88-104: the two strided copies into plane `i` of `f`. -/
def weavePlane (bytesPerSample : Nat) (st sb : VSFrame) (i : Nat) (f : VSFrame) : VSFrame :=
  let dst_stride := (getPlane f i).stride
  let srct_stride := (getPlane st i).stride
  let srcb_stride := (getPlane sb i).stride
  let width := (getPlane f i).width
  let height := (getPlane f i).height
  let buf := bitblt (getPlane f i).data 0 (dst_stride * 2)
    (getPlane st i).data 0 (srct_stride * 2) (width * bytesPerSample) (height / 2)
  let buf := bitblt buf dst_stride (dst_stride * 2)
    (getPlane sb i).data srcb_stride (srcb_stride * 2) (width * bytesPerSample) (height / 2)
  setPlaneData f i buf

/-- The loop over the planes of line 87, with `k` planes left and the counter at `i`. -/
def weaveLoop (bytesPerSample : Nat) (st sb : VSFrame) : Nat → Nat → VSFrame → VSFrame
  | 0, _, f => f
  | k + 1, i, f => weaveLoop bytesPerSample st sb k (i + 1) (weavePlane bytesPerSample st sb i f)

/-- The frame callback.  `node` is the input clip (source picture by index)
and `fresh` the frame the host allocates if `newVideoFrame` is called. -/
def rffGetFrame (n : Nat) (activationReason : VSActivationReason) (d : rffData)
    (node : Nat → VSFrame) (fresh : VSFrame) : Option GetFrameResult :=
  match selectFields d n with
  | none => none
  | some (top_field, bottom_field) =>
    let top := top_field.target.frame
    let bottom := bottom_field.target.frame
    let samefields := top == bottom
    if activationReason = VSActivationReason.arInitial then
      if samefields then
        some { calls := [VSCall.requestFrameFilter top], frame := none }
      else
        some
          { calls := [VSCall.requestFrameFilter (min top bottom),
                      VSCall.requestFrameFilter (max top bottom)]
            frame := none }
    else if activationReason ≠ VSActivationReason.arAllFramesReady then
      some { calls := [], frame := none }
    else
      let st := node top
      let sb := node bottom
      let calls :=
        if samefields then [VSCall.getFrameFilter top]
        else [VSCall.getFrameFilter top, VSCall.getFrameFilter bottom]
      let built : VSFrame × List VSCall :=
        if samefields then (copyFrame st, calls ++ [VSCall.copyFrame top])
        else
          let prop_src := if bottom_field.index < top_field.index then sb else st
          let prop_idx := if bottom_field.index < top_field.index then bottom else top
          let f := newVideoFrame fresh prop_src
          (weaveLoop d.vi.format.bytesPerSample st sb d.vi.format.numPlanes 0 f,
            calls ++ [VSCall.newVideoFrame prop_idx])
      let tagged : VSFrame × List VSCall :=
        if !samefields then
          let v : Int := if bottom_field.index < top_field.index then 1 else 2
          ({ built.1 with props := mapSetInt built.1.props "_FieldBased" v },
            built.2 ++ [VSCall.mapSetInt "_FieldBased" v])
        else built
      let calls :=
        if !samefields then tagged.2 ++ [VSCall.freeFrame top, VSCall.freeFrame bottom]
        else tagged.2 ++ [VSCall.freeFrame top]
      some { calls := calls, frame := some tagged.1 }

/-- The bytes `row_size` long that start row `y` of a plane. -/
def rowBytes (p : VSPlane) (row_size y : Nat) : List Nat :=
  (List.range row_size).map (fun x => p.data.getD (y * p.stride + x) 0)

/-- The entries read for output frame `n` (lines 44-45), in storage order. -/
def framePair (fields : List rffField) (n : Nat) : Option (rffField × rffField) :=
  match fields[n * 2]?, fields[n * 2 + 1]? with
  | some a, some b => some (a, b)
  | _, _ => none

/-! ## Derived notions used to state the properties -/

/-- The entries `appendFields` pushes for picture `i`, on their own. -/
def pictureFields (mpeg_type : Int) (i : Nat) (p : PictureFlags) : List rffField :=
  appendFields mpeg_type i p []

/-- Every vector read of the first `n` loop iterations is in range. -/
def InRange (c : FlagBits) (d : d2vcontext) (n : Nat) : Prop :=
  ∀ i, i < n → (readFlags c d i).isSome = true

instance (c : FlagBits) (d : d2vcontext) (n : Nat) : Decidable (InRange c d n) := by
  unfold InRange; infer_instance

/-- The schedule after the first `n` loop iterations (empty when a read was
out of range); its length is the offset at which picture `n` starts. -/
def scheduleOf (c : FlagBits) (d : d2vcontext) (n : Nat) : List rffField :=
  (rffLoop c d n 0 []).getD []

/-- Picture `i` is handled by the field-repeat branch and has its repeat flag set. -/
def repeatsField (c : FlagBits) (d : d2vcontext) (i : Nat) : Bool :=
  match readFlags c d i with
  | some p => !progressiveMode d.mpeg_type p && p.rff
  | none => false

/-- The integer property `key` of a frame, if it has one. -/
def getProp (f : VSFrame) (key : String) : Option Int :=
  (f.props.find? (fun kv => kv.1 == key)).map (fun kv => kv.2)

/-- The source indices passed to `requestFrameFilter`, in call order. -/
def requestedFrames (calls : List VSCall) : List Nat :=
  calls.filterMap (fun call =>
    match call with
    | VSCall.requestFrameFilter n => some n
    | _ => none)

/-- A clip of `n` coded pictures, one 8-bit plane of 2 by 4 samples. -/
def clipInfo (n : Int) : VSVideoInfo :=
  { format := { numPlanes := 1, bytesPerSample := 1 }, width := 2, height := 4, numFrames := n }

/-- An index whose pictures all sit in one group with sequence word `info`,
picture `i` having flag byte `flags[i]`. -/
def oneGop (info : Nat) (flags : List Nat) (mpeg_type : Int) : d2vcontext :=
  { gops := [{ info := info, flags := flags }]
    frames := (List.range flags.length).map (fun i => { gop := 0, offset := i })
    mpeg_type := mpeg_type }

/-- Three pictures of a progressive sequence: no repeat, repeat, repeat with
top-field-first. -/
def progressiveThree : d2vcontext := oneGop 0x200 [0x00, 0x01, 0x03] 2

/-- Two interlaced top-field-first pictures, both with the repeat flag. -/
def pulldownTwo : d2vcontext := oneGop 0 [0x03, 0x03] 2

/-- Two interlaced top-field-first pictures, only the first with the repeat flag. -/
def oddTwo : d2vcontext := oneGop 0 [0x03, 0x02] 2

/-- Four interlaced pictures in the 3:2 pulldown cadence: top-field-first with
repeat, bottom-field-first, bottom-field-first with repeat, top-field-first. -/
def telecineFour : d2vcontext := oneGop 0 [0x03, 0x00, 0x01, 0x02] 2

/-- An 8-bit plane of `height` rows of 2 samples, stride 2, whose bytes count
upwards from `base`. -/
def grayPlane (height base : Nat) : VSPlane :=
  { width := 2, height := height, stride := 2
    data := (List.range (2 * height)).map (fun x => base + x) }

/-- A one-plane clip of the given height: picture `i` holds the bytes
`100 * (i + 1)`, `100 * (i + 1) + 1`, ... and carries its index as property `"n"`. -/
def grayClip (height : Nat) (i : Nat) : VSFrame :=
  { planes := [grayPlane height (100 * (i + 1))], props := [("n", (i : Int))] }

/-- A newly allocated one-plane frame of the given height whose bytes are
whatever `bytes` happens to be. -/
def freshGray (height : Nat) (bytes : List Nat) : VSFrame :=
  { planes := [{ width := 2, height := height, stride := 2, data := bytes }], props := [] }

/-- The instance data built from `pulldownTwo` for a clip with planes of
`height` rows: schedule `Top0, Bot0, Top0, Top1, Bot1, Top1`. -/
def pulldownTwoData (height : Nat) : rffData :=
  { d2v := pulldownTwo
    vi := { format := { numPlanes := 1, bytesPerSample := 1 }, width := 2, height := height,
            numFrames := 3 }
    fields := [{ frame := 0, type := rffFieldType.Top },
               { frame := 0, type := rffFieldType.Bottom },
               { frame := 0, type := rffFieldType.Top },
               { frame := 1, type := rffFieldType.Top },
               { frame := 1, type := rffFieldType.Bottom },
               { frame := 1, type := rffFieldType.Top }] }

/-- One H.264 picture flagged progressive-frame, repeat and top-field-first,
in a group whose sequence word is clear. -/
def h264Triple : d2vcontext := oneGop 0 [0x43] 264

/-- An H.264 index mixing the two branches: an interlaced top-field-first
picture with repeat, two progressive-frame pictures, an interlaced
top-field-first picture. -/
def mixedFour : d2vcontext := oneGop 0 [0x03, 0x40, 0x40, 0x02] 264

/-- The instance data built from `mixedFour` for a clip with planes of
`height` rows: schedule `Top0, Bot0, Top0, P1, P1, P2, P2, Top3, Bot3`. -/
def mixedFourData (height : Nat) : rffData :=
  { d2v := mixedFour
    vi := { format := { numPlanes := 1, bytesPerSample := 1 }, width := 2, height := height,
            numFrames := 4 }
    fields := [{ frame := 0, type := rffFieldType.Top },
               { frame := 0, type := rffFieldType.Bottom },
               { frame := 0, type := rffFieldType.Top },
               { frame := 1, type := rffFieldType.Progressive },
               { frame := 1, type := rffFieldType.Progressive },
               { frame := 2, type := rffFieldType.Progressive },
               { frame := 2, type := rffFieldType.Progressive },
               { frame := 3, type := rffFieldType.Top },
               { frame := 3, type := rffFieldType.Bottom }] }

/-- Two interlaced bottom-field-first pictures, both with the repeat flag. -/
def bottomTwo : d2vcontext := oneGop 0 [0x01, 0x01] 2

/-- The instance data built from `bottomTwo` for a clip with planes of
`height` rows: schedule `Bot0, Top0, Bot0, Bot1, Top1, Bot1`. -/
def bottomTwoData (height : Nat) : rffData :=
  { d2v := bottomTwo
    vi := { format := { numPlanes := 1, bytesPerSample := 1 }, width := 2, height := height,
            numFrames := 3 }
    fields := [{ frame := 0, type := rffFieldType.Bottom },
               { frame := 0, type := rffFieldType.Top },
               { frame := 0, type := rffFieldType.Bottom },
               { frame := 1, type := rffFieldType.Bottom },
               { frame := 1, type := rffFieldType.Top },
               { frame := 1, type := rffFieldType.Bottom }] }

/-! ## Lemmas on the builder -/

theorem appendFields_append (mpeg_type : Int) (i : Nat) (p : PictureFlags)
    (fields : List rffField) :
    appendFields mpeg_type i p fields = fields ++ pictureFields mpeg_type i p := by
  unfold pictureFields appendFields push_back
  split <;> cases p.rff <;> cases p.tff <;> simp

theorem rffLoop_snoc (c : FlagBits) (d : d2vcontext) (k : Nat) :
    ∀ (i : Nat) (fields : List rffField),
      rffLoop c d (k + 1) i fields
        = (rffLoop c d k i fields).bind (fun fs => rffBody c d (i + k) fs) := by
  induction k with
  | zero =>
    intro i fields
    simp only [rffLoop, Nat.add_zero, Option.some_bind]
    cases rffBody c d i fields <;> rfl
  | succ k ih =>
    intro i fields
    rw [rffLoop]
    cases hb : rffBody c d i fields with
    | none => simp [rffLoop, hb]
    | some fs =>
      simp only []
      rw [ih (i + 1) fs]
      conv_rhs => rw [rffLoop, hb]
      simp only []
      have : i + 1 + k = i + (k + 1) := by omega
      rw [this]

theorem rffLoop_isSome (c : FlagBits) (d : d2vcontext) (n : Nat) (h : InRange c d n) :
    rffLoop c d n 0 [] = some (scheduleOf c d n) := by
  induction n with
  | zero => simp [scheduleOf, rffLoop]
  | succ n ih =>
    have hn : InRange c d n := fun i hi => h i (Nat.lt_succ_of_lt hi)
    have hs := h n (Nat.lt_succ_self n)
    obtain ⟨p, hp⟩ := Option.isSome_iff_exists.mp hs
    unfold scheduleOf
    rw [rffLoop_snoc, ih hn]
    simp [rffBody, hp]

theorem scheduleOf_succ (c : FlagBits) (d : d2vcontext) (n : Nat) (p : PictureFlags)
    (h : InRange c d n) (hp : readFlags c d n = some p) :
    scheduleOf c d (n + 1) = scheduleOf c d n ++ pictureFields d.mpeg_type n p := by
  conv_lhs => unfold scheduleOf
  rw [rffLoop_snoc, rffLoop_isSome c d n h]
  simp [rffBody, hp, appendFields_append]

theorem scheduleOf_zero (c : FlagBits) (d : d2vcontext) : scheduleOf c d 0 = [] := by
  simp [scheduleOf, rffLoop]

theorem InRange_mono {c : FlagBits} {d : d2vcontext} {m n : Nat} (hmn : m ≤ n)
    (h : InRange c d n) : InRange c d m :=
  fun i hi => h i (Nat.lt_of_lt_of_le hi hmn)

theorem InRange_flags {c : FlagBits} {d : d2vcontext} {n i : Nat} (h : InRange c d n)
    (hi : i < n) : ∃ p, readFlags c d i = some p :=
  Option.isSome_iff_exists.mp (h i hi)

theorem castInt_of_lt (n : Nat) (h : n < 2 ^ 31) : castInt n = (n : Int) := by
  unfold castInt
  have h1 : n % 2 ^ 32 = n := Nat.mod_eq_of_lt (by omega)
  rw [h1, if_pos h]

theorem tdiv_two_natCast (n : Nat) : Int.tdiv (n : Int) 2 = ((n / 2 : Nat) : Int) := by
  have : (2 : Int) = ((2 : Nat) : Int) := rfl
  rw [this, Int.ofNat_tdiv]

theorem rffCreate_registered (c : FlagBits) (d : d2vcontext) (vi : VSVideoInfo)
    (h : InRange c d vi.numFrames.toNat) :
    rffCreate c (Except.ok d) vi
      = CreateResult.registered
          { d2v := d
            vi := { vi with
              numFrames := Int.tdiv (castInt (scheduleOf c d vi.numFrames.toNat).length) 2 }
            fields := scheduleOf c d vi.numFrames.toNat } := by
  simp [rffCreate, rffLoop_isSome c d _ h]

theorem pictureFields_progressive (mpeg_type : Int) (i : Nat) (p : PictureFlags)
    (hp : progressiveMode mpeg_type p = true) :
    pictureFields mpeg_type i p
      = List.replicate (if p.rff = true then (if p.tff = true then 6 else 4) else 2)
          { frame := i, type := rffFieldType.Progressive } := by
  unfold progressiveMode at hp
  unfold pictureFields appendFields push_back
  rw [if_pos hp]
  cases p.rff <;> cases p.tff <;> simp [List.replicate]

theorem pictureFields_interlaced (mpeg_type : Int) (i : Nat) (p : PictureFlags)
    (hp : progressiveMode mpeg_type p = false) :
    pictureFields mpeg_type i p
      = [{ frame := i, type := if p.tff = true then rffFieldType.Top else rffFieldType.Bottom },
         { frame := i, type := if p.tff = true then rffFieldType.Bottom else rffFieldType.Top }]
        ++ (if p.rff = true then
              [{ frame := i,
                 type := if p.tff = true then rffFieldType.Top else rffFieldType.Bottom }]
            else []) := by
  unfold progressiveMode at hp
  unfold pictureFields appendFields push_back
  rw [if_neg (by simp [hp])]
  cases p.rff <;> simp

theorem pictureFields_length_mod (mpeg_type : Int) (i : Nat) (p : PictureFlags) :
    (pictureFields mpeg_type i p).length % 2
      = if (!progressiveMode mpeg_type p && p.rff) = true then 1 else 0 := by
  cases hp : progressiveMode mpeg_type p
  · rw [pictureFields_interlaced mpeg_type i p hp]
    cases p.rff <;> simp
  · rw [pictureFields_progressive mpeg_type i p hp]
    cases p.rff <;> cases p.tff <;> simp

theorem scheduleOf_length_mod (c : FlagBits) (d : d2vcontext) (n : Nat) (h : InRange c d n) :
    (scheduleOf c d n).length % 2
      = ((List.range n).filter (repeatsField c d)).length % 2 := by
  induction n with
  | zero => simp [scheduleOf_zero]
  | succ n ih =>
    have hn : InRange c d n := InRange_mono (Nat.le_succ n) h
    obtain ⟨p, hp⟩ := InRange_flags h (Nat.lt_succ_self n)
    rw [scheduleOf_succ c d n p hn hp, List.range_succ, List.filter_append,
      List.length_append, List.length_append, Nat.add_mod, ih hn,
      pictureFields_length_mod]
    have hrep : repeatsField c d n = (!progressiveMode d.mpeg_type p && p.rff) := by
      simp [repeatsField, hp]
    rw [← hrep]
    cases hq : repeatsField c d n <;> simp [List.filter, hq]

theorem pictureFields_frame (mpeg_type : Int) (i : Nat) (p : PictureFlags) :
    ∀ e ∈ pictureFields mpeg_type i p, e.frame = i := by
  intro e he
  cases hm : progressiveMode mpeg_type p
  · rw [pictureFields_interlaced _ _ _ hm] at he
    cases hr : p.rff <;> simp [hr] at he <;> rcases he with rfl | rfl | rfl <;> rfl
  · rw [pictureFields_progressive _ _ _ hm] at he
    rw [(List.mem_replicate.mp he).2]

theorem pictureFields_cons (mpeg_type : Int) (i : Nat) (p : PictureFlags) :
    ∃ a b tl, pictureFields mpeg_type i p = a :: b :: tl := by
  cases hm : progressiveMode mpeg_type p
  · rw [pictureFields_interlaced _ _ _ hm]
    exact ⟨_, _, _, rfl⟩
  · rw [pictureFields_progressive _ _ _ hm]
    cases p.rff <;> cases p.tff <;> exact ⟨_, _, _, rfl⟩

theorem scheduleOf_split (c : FlagBits) (d : d2vcontext) (m n : Nat) (hmn : m ≤ n)
    (h : InRange c d n) :
    ∃ rest, scheduleOf c d n = scheduleOf c d m ++ rest
      ∧ ∀ e ∈ rest, m ≤ e.frame ∧ e.frame < n := by
  induction n, hmn using Nat.le_induction with
  | base => exact ⟨[], by simp, by simp⟩
  | succ n hmn ih =>
    have hn : InRange c d n := InRange_mono (Nat.le_succ n) h
    obtain ⟨rest, hrest, hfr⟩ := ih hn
    obtain ⟨p, hp⟩ := InRange_flags h (Nat.lt_succ_self n)
    refine ⟨rest ++ pictureFields d.mpeg_type n p, ?_, ?_⟩
    · rw [scheduleOf_succ c d n p hn hp, hrest, List.append_assoc]
    · intro e he
      rcases List.mem_append.mp he with he | he
      · have := hfr e he
        omega
      · have := pictureFields_frame _ _ _ e he
        omega

theorem scheduleOf_frame_lt (c : FlagBits) (d : d2vcontext) (n : Nat) (h : InRange c d n) :
    ∀ e ∈ scheduleOf c d n, e.frame < n := by
  obtain ⟨rest, hrest, hfr⟩ := scheduleOf_split c d 0 n (Nat.zero_le n) h
  rw [hrest, scheduleOf_zero, List.nil_append]
  exact fun e he => (hfr e he).2

/-- The schedule of `n` pictures, cut around the entries of picture `i` and
of picture `i + 1`. -/
theorem scheduleOf_two (c : FlagBits) (d : d2vcontext) (n i : Nat) (p q : PictureFlags)
    (h : InRange c d n) (hi : i + 1 < n) (hp : readFlags c d i = some p)
    (hq : readFlags c d (i + 1) = some q) :
    ∃ rest, scheduleOf c d n
        = scheduleOf c d i
            ++ (pictureFields d.mpeg_type i p ++ (pictureFields d.mpeg_type (i + 1) q ++ rest))
      ∧ ∀ e ∈ rest, i + 2 ≤ e.frame := by
  obtain ⟨rest, hrest, hfr⟩ := scheduleOf_split c d (i + 2) n (by omega) h
  refine ⟨rest, ?_, fun e he => (hfr e he).1⟩
  rw [hrest, scheduleOf_succ c d (i + 1) q (InRange_mono (by omega) h) hq,
    scheduleOf_succ c d i p (InRange_mono (by omega) h) hp]
  simp [List.append_assoc]

theorem framePair_append (pre rest : List rffField) (k j : Nat) (h : pre.length = 2 * k) :
    framePair (pre ++ rest) (k + j) = framePair rest j := by
  unfold framePair
  have h1 : (pre ++ rest)[(k + j) * 2]? = rest[j * 2]? := by
    rw [List.getElem?_append_right (by omega)]
    congr 1
    omega
  have h2 : (pre ++ rest)[(k + j) * 2 + 1]? = rest[j * 2 + 1]? := by
    rw [List.getElem?_append_right (by omega)]
    congr 1
    omega
  rw [h1, h2]

theorem framePair_lt (fields : List rffField) (k : Nat) (a b : rffField)
    (h : framePair fields k = some (a, b)) : k < fields.length / 2 := by
  unfold framePair at h
  cases h2 : fields[k * 2 + 1]? with
  | none => cases h1 : fields[k * 2]? <;> simp [h1, h2] at h
  | some y =>
    have := (List.getElem?_eq_some_iff.mp h2).1
    omega

theorem scheduleOf_filter_frame (c : FlagBits) (d : d2vcontext) (n i : Nat) (p : PictureFlags)
    (h : InRange c d n) (hi : i < n) (hp : readFlags c d i = some p) :
    (scheduleOf c d n).filter (fun e => e.frame == i) = pictureFields d.mpeg_type i p := by
  obtain ⟨rest, hrest, hfr⟩ := scheduleOf_split c d (i + 1) n hi h
  have hpre := scheduleOf_frame_lt c d i (InRange_mono (by omega) h)
  rw [hrest, scheduleOf_succ c d i p (InRange_mono (by omega) h) hp, List.filter_append,
    List.filter_append]
  have h1 : (scheduleOf c d i).filter (fun e => e.frame == i) = [] := by
    rw [List.filter_eq_nil_iff]
    intro e he
    have := hpre e he
    simp
    omega
  have h2 : rest.filter (fun e => e.frame == i) = [] := by
    rw [List.filter_eq_nil_iff]
    intro e he
    have := (hfr e he).1
    simp
    omega
  have h3 : (pictureFields d.mpeg_type i p).filter (fun e => e.frame == i)
      = pictureFields d.mpeg_type i p := by
    rw [List.filter_eq_self]
    intro e he
    simp [pictureFields_frame _ _ _ e he]
  rw [h1, h2, h3]
  simp

/-! ## The claims on the builder -/

/-- C1: a progressive-mode picture `i` gets only entries `{i, Progressive}`:
two without the repeat flag (whatever top-field-first is), four with repeat
and without top-field-first, six with both; and three progressive-sequence
pictures flagged `[no repeat, repeat, repeat + top-field-first]` give a
schedule of 12 entries and 6 output frames. -/
theorem progressive_picture_entries :
    (∀ (c : FlagBits) (d : d2vcontext) (i : Nat) (p : PictureFlags) (fields : List rffField),
        readFlags c d i = some p → progressiveMode d.mpeg_type p = true →
        rffBody c d i fields
          = some (fields ++
              List.replicate (if p.rff = true then (if p.tff = true then 6 else 4) else 2)
                { frame := i, type := rffFieldType.Progressive }))
    ∧ (∀ (c : FlagBits) (d : d2vcontext) (vi : VSVideoInfo) (p0 p1 p2 : PictureFlags),
        vi.numFrames = 3 →
        readFlags c d 0 = some p0 → readFlags c d 1 = some p1 → readFlags c d 2 = some p2 →
        p0.progressive_sequence = true → p1.progressive_sequence = true →
        p2.progressive_sequence = true →
        p0.rff = false → (p1.rff = true ∧ p1.tff = false) → (p2.rff = true ∧ p2.tff = true) →
        ∃ data, rffCreate c (Except.ok d) vi = CreateResult.registered data
          ∧ data.fields.length = 12 ∧ data.vi.numFrames = 6
          ∧ (pictureFields d.mpeg_type 0 p0).length = 2
          ∧ (pictureFields d.mpeg_type 1 p1).length = 4
          ∧ (pictureFields d.mpeg_type 2 p2).length = 6) := by
  constructor
  · intro c d i p fields hp hm
    simp only [rffBody, hp, appendFields_append]
    rw [pictureFields_progressive d.mpeg_type i p hm]
  · intro c d vi p0 p1 p2 h3 h0 h1 h2 s0 s1 s2 r0 r1 r2
    have m0 : progressiveMode d.mpeg_type p0 = true := by simp [progressiveMode, s0]
    have m1 : progressiveMode d.mpeg_type p1 = true := by simp [progressiveMode, s1]
    have m2 : progressiveMode d.mpeg_type p2 = true := by simp [progressiveMode, s2]
    have hr : InRange c d 3 := by
      intro i hi
      have : i = 0 ∨ i = 1 ∨ i = 2 := by omega
      rcases this with rfl | rfl | rfl
      · simp [h0]
      · simp [h1]
      · simp [h2]
    have e1 := scheduleOf_succ c d 0 p0 (InRange_mono (by omega) hr) h0
    have e2 := scheduleOf_succ c d 1 p1 (InRange_mono (by omega) hr) h1
    have e3 := scheduleOf_succ c d 2 p2 (InRange_mono (by omega) hr) h2
    have l0 : (pictureFields d.mpeg_type 0 p0).length = 2 := by
      rw [pictureFields_progressive _ _ _ m0]; simp [r0]
    have l1 : (pictureFields d.mpeg_type 1 p1).length = 4 := by
      rw [pictureFields_progressive _ _ _ m1]; simp [r1.1, r1.2]
    have l2 : (pictureFields d.mpeg_type 2 p2).length = 6 := by
      rw [pictureFields_progressive _ _ _ m2]; simp [r2.1, r2.2]
    have hlen : (scheduleOf c d 3).length = 12 := by
      rw [e3, e2, e1, scheduleOf_zero]
      simp [l0, l1, l2]
    have hN : vi.numFrames.toNat = 3 := by rw [h3]; rfl
    refine ⟨_, rffCreate_registered c d vi (by rw [hN]; exact hr), ?_, ?_, l0, l1, l2⟩
    · simp only [hN]; exact hlen
    · simp only [hN, hlen]; decide

theorem progressive_picture_entries_witness :
    (readFlags dgindexBits progressiveThree 2
        = some { rff := true, tff := true, progressive_frame := false,
                 progressive_sequence := true }
      ∧ rffBody dgindexBits progressiveThree 2 []
        = some (List.replicate 6 { frame := 2, type := rffFieldType.Progressive }))
    ∧ ∃ data, rffCreate dgindexBits (Except.ok progressiveThree) (clipInfo 3)
          = CreateResult.registered data
        ∧ data.fields.length = 12 ∧ data.vi.numFrames = 6 :=
  ⟨⟨by decide,
    progressive_picture_entries.1 dgindexBits progressiveThree 2
      { rff := true, tff := true, progressive_frame := false, progressive_sequence := true }
      [] (by decide) (by decide)⟩,
   (progressive_picture_entries.2 dgindexBits progressiveThree (clipInfo 3)
      { rff := false, tff := false, progressive_frame := false, progressive_sequence := true }
      { rff := true, tff := false, progressive_frame := false, progressive_sequence := true }
      { rff := true, tff := true, progressive_frame := false, progressive_sequence := true }
      (by decide) (by decide) (by decide) (by decide) (by decide) (by decide) (by decide)
      (by decide) (by decide) (by decide)).imp
    (fun _ h => ⟨h.1, h.2.1, h.2.2.1⟩)⟩

/-- C3: whenever the vector reads are in range and the schedule size fits an
`int`, construction registers `len(schedule) / 2` output frames (integer
division), and for `N` coded pictures that are all progressive-mode without
the repeat flag it registers `N`. -/
theorem output_frame_count (c : FlagBits) (d : d2vcontext) (vi : VSVideoInfo)
    (hr : InRange c d vi.numFrames.toNat)
    (hfit : (scheduleOf c d vi.numFrames.toNat).length < 2 ^ 31) :
    ∃ data, rffCreate c (Except.ok d) vi = CreateResult.registered data
      ∧ data.vi.numFrames = ((data.fields.length / 2 : Nat) : Int)
      ∧ ((∀ i p, i < vi.numFrames.toNat → readFlags c d i = some p →
            progressiveMode d.mpeg_type p = true ∧ p.rff = false) →
          data.vi.numFrames = (vi.numFrames.toNat : Int)) := by
  refine ⟨_, rffCreate_registered c d vi hr, ?_, ?_⟩
  · simp only [castInt_of_lt _ hfit, tdiv_two_natCast]
  · intro hall
    simp only [castInt_of_lt _ hfit, tdiv_two_natCast]
    have key : ∀ n, n ≤ vi.numFrames.toNat → (scheduleOf c d n).length = 2 * n := by
      intro n
      induction n with
      | zero => intro _; simp [scheduleOf_zero]
      | succ n ih =>
        intro hn
        obtain ⟨p, hp⟩ := InRange_flags hr (show n < vi.numFrames.toNat by omega)
        obtain ⟨hm, hrf⟩ := hall n p (by omega) hp
        rw [scheduleOf_succ c d n p (InRange_mono (by omega) hr) hp, List.length_append,
          ih (by omega), pictureFields_progressive _ _ _ hm]
        simp [hrf]
        omega
    rw [key _ (Nat.le_refl _)]
    simp

theorem output_frame_count_witness :
    (InRange dgindexBits progressiveThree 3
      ∧ (scheduleOf dgindexBits progressiveThree 3).length < 2 ^ 31)
    ∧ ∃ data, rffCreate dgindexBits (Except.ok progressiveThree) (clipInfo 3)
          = CreateResult.registered data
        ∧ data.vi.numFrames = ((data.fields.length / 2 : Nat) : Int) :=
  ⟨⟨by decide, by decide⟩,
   (output_frame_count dgindexBits progressiveThree (clipInfo 3) (by decide) (by decide)).imp
    (fun _ h => ⟨h.1, h.2.1⟩)⟩

/-- C4: whenever the vector reads are in range, the schedule the builder
returns has even length exactly when the number of interlaced-mode pictures
with the repeat flag is even; so a flag sequence in which they occur an even
number of times yields an even schedule. -/
theorem schedule_length_even_iff (c : FlagBits) (d : d2vcontext) (vi : VSVideoInfo)
    (hr : InRange c d vi.numFrames.toNat) :
    ∃ data, rffCreate c (Except.ok d) vi = CreateResult.registered data
      ∧ (data.fields.length % 2 = 0
          ↔ ((List.range vi.numFrames.toNat).filter (repeatsField c d)).length % 2 = 0) := by
  refine ⟨_, rffCreate_registered c d vi hr, ?_⟩
  simp only [scheduleOf_length_mod c d _ hr]

theorem schedule_length_even_iff_witness :
    InRange dgindexBits pulldownTwo 2
    ∧ ∃ data, rffCreate dgindexBits (Except.ok pulldownTwo) (clipInfo 2)
          = CreateResult.registered data
        ∧ (data.fields.length % 2 = 0
            ↔ ((List.range 2).filter (repeatsField dgindexBits pulldownTwo)).length % 2 = 0) :=
  ⟨by decide, schedule_length_even_iff dgindexBits pulldownTwo (clipInfo 2) (by decide)⟩

/-- C5, the claim as stated fails: two interlaced top-field-first pictures,
the first with the repeat flag and the second without, give the 5 entries
`Top0, Bot0, Top0, Top1, Bot1`, and construction reports no error but
registers the filter with 2 output frames. -/
theorem odd_schedule_is_registered :
    rffCreate dgindexBits (Except.ok oddTwo) (clipInfo 2)
        = CreateResult.registered
            { d2v := oddTwo
              vi := { clipInfo 2 with numFrames := 2 }
              fields := [{ frame := 0, type := rffFieldType.Top },
                         { frame := 0, type := rffFieldType.Bottom },
                         { frame := 0, type := rffFieldType.Top },
                         { frame := 1, type := rffFieldType.Top },
                         { frame := 1, type := rffFieldType.Bottom }] }
    ∧ ¬ ∃ msg, rffCreate dgindexBits (Except.ok oddTwo) (clipInfo 2) = CreateResult.error msg := by
  have h : rffCreate dgindexBits (Except.ok oddTwo) (clipInfo 2)
        = CreateResult.registered
            { d2v := oddTwo
              vi := { clipInfo 2 with numFrames := 2 }
              fields := [{ frame := 0, type := rffFieldType.Top },
                         { frame := 0, type := rffFieldType.Bottom },
                         { frame := 0, type := rffFieldType.Top },
                         { frame := 1, type := rffFieldType.Top },
                         { frame := 1, type := rffFieldType.Bottom }] } := by
    decide
  refine ⟨h, ?_⟩
  rintro ⟨msg, hmsg⟩
  rw [h] at hmsg
  cases hmsg

/-- C5, amended: when the schedule length is odd after all coded pictures
(reads in range, size fitting an `int`), construction does not fail: it
registers the schedule as built with `(len - 1) / 2` output frames, the last
entry belonging to no output frame; for two interlaced top-field-first
pictures, the first with repeat and the second without, it registers the 5
entries `Top0, Bot0, Top0, Top1, Bot1` and 2 output frames. -/
theorem odd_schedule_truncated :
    (∀ (c : FlagBits) (d : d2vcontext) (vi : VSVideoInfo),
        InRange c d vi.numFrames.toNat →
        (scheduleOf c d vi.numFrames.toNat).length % 2 = 1 →
        (scheduleOf c d vi.numFrames.toNat).length < 2 ^ 31 →
        ∃ data, rffCreate c (Except.ok d) vi = CreateResult.registered data
          ∧ data.fields = scheduleOf c d vi.numFrames.toNat
          ∧ 2 * data.vi.numFrames + 1 = (data.fields.length : Int)
          ∧ ∀ n : Nat, (n : Int) < data.vi.numFrames → n * 2 + 1 < data.fields.length - 1)
    ∧ (∀ (c : FlagBits) (d : d2vcontext) (vi : VSVideoInfo) (p0 p1 : PictureFlags),
        vi.numFrames = 2 → readFlags c d 0 = some p0 → readFlags c d 1 = some p1 →
        progressiveMode d.mpeg_type p0 = false → progressiveMode d.mpeg_type p1 = false →
        p0.tff = true → p1.tff = true → p0.rff = true → p1.rff = false →
        ∃ data, rffCreate c (Except.ok d) vi = CreateResult.registered data
          ∧ data.fields = [{ frame := 0, type := rffFieldType.Top },
                           { frame := 0, type := rffFieldType.Bottom },
                           { frame := 0, type := rffFieldType.Top },
                           { frame := 1, type := rffFieldType.Top },
                           { frame := 1, type := rffFieldType.Bottom }]
          ∧ data.vi.numFrames = 2) := by
  constructor
  · intro c d vi hr hodd hfit
    refine ⟨_, rffCreate_registered c d vi hr, rfl, ?_, ?_⟩
    · simp only [castInt_of_lt _ hfit, tdiv_two_natCast]
      have : 2 * ((scheduleOf c d vi.numFrames.toNat).length / 2) + 1
          = (scheduleOf c d vi.numFrames.toNat).length := by omega
      exact_mod_cast this
    · intro n hn
      simp only [castInt_of_lt _ hfit, tdiv_two_natCast] at hn
      have hn2 : n < (scheduleOf c d vi.numFrames.toNat).length / 2 := by exact_mod_cast hn
      show n * 2 + 1 < (scheduleOf c d vi.numFrames.toNat).length - 1
      omega
  · intro c d vi p0 p1 h2 h0 h1 m0 m1 t0 t1 r0 r1
    have hr : InRange c d 2 := by
      intro i hi
      have : i = 0 ∨ i = 1 := by omega
      rcases this with rfl | rfl
      · simp [h0]
      · simp [h1]
    have hN : vi.numFrames.toNat = 2 := by rw [h2]; rfl
    have hs : scheduleOf c d 2
        = [{ frame := 0, type := rffFieldType.Top },
           { frame := 0, type := rffFieldType.Bottom },
           { frame := 0, type := rffFieldType.Top },
           { frame := 1, type := rffFieldType.Top },
           { frame := 1, type := rffFieldType.Bottom }] := by
      rw [scheduleOf_succ c d 1 p1 (InRange_mono (by omega) hr) h1,
        scheduleOf_succ c d 0 p0 (InRange_mono (by omega) hr) h0, scheduleOf_zero,
        pictureFields_interlaced _ _ _ m0, pictureFields_interlaced _ _ _ m1]
      simp [t0, t1, r0, r1]
    refine ⟨_, rffCreate_registered c d vi (by rw [hN]; exact hr), ?_, ?_⟩
    · simp only [hN]; exact hs
    · simp only [hN, hs]; decide

theorem odd_schedule_truncated_witness :
    (InRange dgindexBits oddTwo 2
      ∧ (scheduleOf dgindexBits oddTwo 2).length % 2 = 1
      ∧ (scheduleOf dgindexBits oddTwo 2).length < 2 ^ 31)
    ∧ ∃ data, rffCreate dgindexBits (Except.ok oddTwo) (clipInfo 2)
          = CreateResult.registered data
        ∧ data.fields = scheduleOf dgindexBits oddTwo 2
        ∧ 2 * data.vi.numFrames + 1 = (data.fields.length : Int) :=
  ⟨⟨by decide, by decide, by decide⟩,
   (odd_schedule_truncated.1 dgindexBits oddTwo (clipInfo 2) (by decide) (by decide)
      (by decide)).imp
    (fun _ h => ⟨h.1, h.2.1, h.2.2.1⟩)⟩

/-- C6, the claim as stated fails: in the 3:2 pulldown cadence of four
interlaced pictures (flags top-first + repeat, none, repeat, top-first),
picture 2 has its repeat flag set and is followed by picture 3, but its
three entries `Bot2, Top2, Bot2` start at the odd offset 5: output frame 2 is
`(Top1, Bot2)`, output frame 3 pairs its own fields `(Top2, Bot2)` with the
extra entry as second half, the following output frame 4 is `(Top3, Bot3)`,
and no output frame pairs a field of picture 2 with a field of picture 3. -/
theorem splice_fails_at_odd_offset :
    repeatsField dgindexBits telecineFour 2 = true
    ∧ (scheduleOf dgindexBits telecineFour 2).length = 5
    ∧ ∃ data, rffCreate dgindexBits (Except.ok telecineFour) (clipInfo 4)
          = CreateResult.registered data
        ∧ data.vi.numFrames = 5
        ∧ framePair data.fields 2
            = some ({ frame := 1, type := rffFieldType.Top },
                    { frame := 2, type := rffFieldType.Bottom })
        ∧ framePair data.fields 3
            = some ({ frame := 2, type := rffFieldType.Top },
                    { frame := 2, type := rffFieldType.Bottom })
        ∧ framePair data.fields 4
            = some ({ frame := 3, type := rffFieldType.Top },
                    { frame := 3, type := rffFieldType.Bottom })
        ∧ ∀ k a b, framePair data.fields k = some (a, b) →
            ¬ ((a.frame = 2 ∧ b.frame = 3) ∨ (a.frame = 3 ∧ b.frame = 2)) := by
  refine ⟨by decide, by decide, _, rffCreate_registered _ _ _ (by decide), by decide,
    by decide, by decide, by decide, ?_⟩
  intro k a b h
  have hk := framePair_lt _ k a b h
  have hs : scheduleOf dgindexBits telecineFour (clipInfo 4).numFrames.toNat
      = [{ frame := 0, type := rffFieldType.Top },
         { frame := 0, type := rffFieldType.Bottom },
         { frame := 0, type := rffFieldType.Top },
         { frame := 1, type := rffFieldType.Bottom },
         { frame := 1, type := rffFieldType.Top },
         { frame := 2, type := rffFieldType.Bottom },
         { frame := 2, type := rffFieldType.Top },
         { frame := 2, type := rffFieldType.Bottom },
         { frame := 3, type := rffFieldType.Top },
         { frame := 3, type := rffFieldType.Bottom }] := by
    decide
  simp only [hs] at h hk
  have hk5 : k < 5 := by simpa using hk
  interval_cases k <;> simp [framePair] at h <;> obtain ⟨rfl, rfl⟩ := h <;> simp

/-- C6, amended: an interlaced-mode picture `i` with the repeat flag has
exactly 3 schedule entries; when in addition its entries start at an even
schedule offset `2k` and a picture `i + 1` follows, output frame `k` pairs its
own two fields and output frame `k + 1` has the extra `{i, first}` as first
half and the first entry of picture `i + 1` as second half. -/
theorem field_repeat_splice (c : FlagBits) (d : d2vcontext) (vi : VSVideoInfo) (i : Nat)
    (p : PictureFlags) (hr : InRange c d vi.numFrames.toNat) (hi : i < vi.numFrames.toNat)
    (hp : readFlags c d i = some p) (hm : progressiveMode d.mpeg_type p = false)
    (hrff : p.rff = true) :
    ∃ data, rffCreate c (Except.ok d) vi = CreateResult.registered data
      ∧ (data.fields.filter (fun e => e.frame == i)).length = 3
      ∧ ∀ k q, (scheduleOf c d i).length = 2 * k → i + 1 < vi.numFrames.toNat →
          readFlags c d (i + 1) = some q →
          framePair data.fields k
            = some ({ frame := i,
                      type := if p.tff = true then rffFieldType.Top else rffFieldType.Bottom },
                    { frame := i,
                      type := if p.tff = true then rffFieldType.Bottom else rffFieldType.Top })
          ∧ ∃ b tl, pictureFields d.mpeg_type (i + 1) q = b :: tl ∧ b.frame = i + 1
              ∧ framePair data.fields (k + 1)
                  = some ({ frame := i,
                            type := if p.tff = true then rffFieldType.Top
                                    else rffFieldType.Bottom }, b)
              ∧ k + 1 < data.fields.length / 2 := by
  have hpf := pictureFields_interlaced d.mpeg_type i p hm
  simp only [hrff, if_true] at hpf
  refine ⟨_, rffCreate_registered c d vi hr, ?_, ?_⟩
  · simp only [scheduleOf_filter_frame c d _ i p hr hi hp, hpf]
    rfl
  · intro k q hoff hi1 hq
    obtain ⟨rest, hsplit, _⟩ := scheduleOf_two c d _ i p q hr hi1 hp hq
    obtain ⟨b, b2, tl, hq2⟩ := pictureFields_cons d.mpeg_type (i + 1) q
    have hb : b.frame = i + 1 :=
      pictureFields_frame _ _ _ b (by rw [hq2]; exact List.mem_cons_self _ _)
    have h0 := framePair_append (scheduleOf c d i)
      (pictureFields d.mpeg_type i p ++ (pictureFields d.mpeg_type (i + 1) q ++ rest)) k 0 hoff
    have h1 := framePair_append (scheduleOf c d i)
      (pictureFields d.mpeg_type i p ++ (pictureFields d.mpeg_type (i + 1) q ++ rest)) k 1 hoff
    rw [← hsplit, hpf, hq2] at h0 h1
    simp only [Nat.add_zero] at h0
    have h1v : framePair (scheduleOf c d vi.numFrames.toNat) (k + 1)
        = some ({ frame := i,
                  type := if p.tff = true then rffFieldType.Top else rffFieldType.Bottom }, b) := by
      rw [h1]; simp [framePair]
    refine ⟨?_, b, b2 :: tl, hq2, hb, h1v, framePair_lt _ _ _ _ h1v⟩
    rw [h0]; simp [framePair]

theorem field_repeat_splice_witness :
    (InRange dgindexBits telecineFour 4 ∧ 0 < 4
      ∧ readFlags dgindexBits telecineFour 0
          = some { rff := true, tff := true, progressive_frame := false,
                   progressive_sequence := false })
    ∧ ∃ data, rffCreate dgindexBits (Except.ok telecineFour) (clipInfo 4)
          = CreateResult.registered data
        ∧ (data.fields.filter (fun e => e.frame == 0)).length = 3
        ∧ framePair data.fields 1
            = some ({ frame := 0, type := rffFieldType.Top },
                    { frame := 1, type := rffFieldType.Bottom }) :=
  ⟨⟨by decide, by decide, by decide⟩,
   (field_repeat_splice dgindexBits telecineFour (clipInfo 4) 0
      { rff := true, tff := true, progressive_frame := false, progressive_sequence := false }
      (by decide) (by decide) (by decide) (by decide) rfl).imp
    (fun data h => ⟨h.1, h.2.1, by
      obtain ⟨b, tl, hcons, _, hpair, _⟩ :=
        (h.2.2 0 { rff := false, tff := false, progressive_frame := false,
                   progressive_sequence := false } (by decide) (by decide) (by decide)).2
      have hb : b = { frame := 1, type := rffFieldType.Bottom } := by
        have : pictureFields telecineFour.mpeg_type (0 + 1)
            { rff := false, tff := false, progressive_frame := false,
              progressive_sequence := false }
            = [{ frame := 1, type := rffFieldType.Bottom },
               { frame := 1, type := rffFieldType.Top }] := by decide
        rw [this] at hcons
        injection hcons with h1 _
        exact h1.symm
      rw [← hb]
      exact hpair⟩)⟩

/-- C7: two consecutive interlaced-mode pictures `i`, `i + 1`, both with the
repeat flag and the same top-field-first value, whose entries start at the
even offset `2k`, fill exactly the output frames `k = (first_i, second_i)`,
`k + 1 = (first_i, first_{i+1})` (two sources, one kind) and
`k + 2 = (second_{i+1}, first_{i+1})`; two such top-field-first pictures alone
give 3 output frames `(Top0, Bot0)`, `(Top0, Top1)`, `(Bot1, Top1)`. -/
theorem double_repeat_three_frames :
    (∀ (c : FlagBits) (d : d2vcontext) (vi : VSVideoInfo) (i k : Nat) (p q : PictureFlags),
        InRange c d vi.numFrames.toNat → i + 1 < vi.numFrames.toNat →
        readFlags c d i = some p → readFlags c d (i + 1) = some q →
        progressiveMode d.mpeg_type p = false → progressiveMode d.mpeg_type q = false →
        p.rff = true → q.rff = true → p.tff = q.tff →
        (scheduleOf c d i).length = 2 * k →
        ∃ data, rffCreate c (Except.ok d) vi = CreateResult.registered data
          ∧ (scheduleOf c d (i + 2)).length = 2 * k + 6
          ∧ framePair data.fields k
              = some ({ frame := i,
                        type := if p.tff = true then rffFieldType.Top else rffFieldType.Bottom },
                      { frame := i,
                        type := if p.tff = true then rffFieldType.Bottom else rffFieldType.Top })
          ∧ framePair data.fields (k + 1)
              = some ({ frame := i,
                        type := if p.tff = true then rffFieldType.Top else rffFieldType.Bottom },
                      { frame := i + 1,
                        type := if p.tff = true then rffFieldType.Top else rffFieldType.Bottom })
          ∧ framePair data.fields (k + 2)
              = some ({ frame := i + 1,
                        type := if p.tff = true then rffFieldType.Bottom else rffFieldType.Top },
                      { frame := i + 1,
                        type := if p.tff = true then rffFieldType.Top else rffFieldType.Bottom })
          ∧ k + 2 < data.fields.length / 2)
    ∧ (∀ (c : FlagBits) (d : d2vcontext) (vi : VSVideoInfo) (p0 p1 : PictureFlags),
        vi.numFrames = 2 → readFlags c d 0 = some p0 → readFlags c d 1 = some p1 →
        progressiveMode d.mpeg_type p0 = false → progressiveMode d.mpeg_type p1 = false →
        p0.tff = true → p1.tff = true → p0.rff = true → p1.rff = true →
        ∃ data, rffCreate c (Except.ok d) vi = CreateResult.registered data
          ∧ data.vi.numFrames = 3
          ∧ framePair data.fields 0
              = some ({ frame := 0, type := rffFieldType.Top },
                      { frame := 0, type := rffFieldType.Bottom })
          ∧ framePair data.fields 1
              = some ({ frame := 0, type := rffFieldType.Top },
                      { frame := 1, type := rffFieldType.Top })
          ∧ framePair data.fields 2
              = some ({ frame := 1, type := rffFieldType.Bottom },
                      { frame := 1, type := rffFieldType.Top })) := by
  constructor
  · intro c d vi i k p q hr hi hp hq mp mq rp rq htff hoff
    have hpf := pictureFields_interlaced d.mpeg_type i p mp
    have hqf := pictureFields_interlaced d.mpeg_type (i + 1) q mq
    simp only [rp, if_true] at hpf
    simp only [rq, if_true, ← htff] at hqf
    obtain ⟨rest, hsplit, _⟩ := scheduleOf_two c d _ i p q hr hi hp hq
    have hf := fun j => framePair_append (scheduleOf c d i)
      (pictureFields d.mpeg_type i p ++ (pictureFields d.mpeg_type (i + 1) q ++ rest)) k j hoff
    have h0 := hf 0
    have h1 := hf 1
    have h2 := hf 2
    rw [← hsplit, hpf, hqf] at h0 h1 h2
    simp only [Nat.add_zero] at h0
    have h2v : framePair (scheduleOf c d vi.numFrames.toNat) (k + 2)
        = some ({ frame := i + 1,
                  type := if p.tff = true then rffFieldType.Bottom else rffFieldType.Top },
                { frame := i + 1,
                  type := if p.tff = true then rffFieldType.Top else rffFieldType.Bottom }) := by
      rw [h2]; simp [framePair]
    refine ⟨_, rffCreate_registered c d vi hr, ?_, ?_, ?_, h2v, framePair_lt _ _ _ _ h2v⟩
    · rw [scheduleOf_succ c d (i + 1) q (InRange_mono (by omega) hr) hq,
        scheduleOf_succ c d i p (InRange_mono (by omega) hr) hp, hpf, hqf]
      simp [hoff]
    · rw [h0]; simp [framePair]
    · rw [h1]; simp [framePair]
  · intro c d vi p0 p1 h2 h0 h1 m0 m1 t0 t1 r0 r1
    have hr : InRange c d 2 := by
      intro i hi
      have : i = 0 ∨ i = 1 := by omega
      rcases this with rfl | rfl
      · simp [h0]
      · simp [h1]
    have hN : vi.numFrames.toNat = 2 := by rw [h2]; rfl
    have hs : scheduleOf c d 2
        = [{ frame := 0, type := rffFieldType.Top },
           { frame := 0, type := rffFieldType.Bottom },
           { frame := 0, type := rffFieldType.Top },
           { frame := 1, type := rffFieldType.Top },
           { frame := 1, type := rffFieldType.Bottom },
           { frame := 1, type := rffFieldType.Top }] := by
      rw [scheduleOf_succ c d 1 p1 (InRange_mono (by omega) hr) h1,
        scheduleOf_succ c d 0 p0 (InRange_mono (by omega) hr) h0, scheduleOf_zero,
        pictureFields_interlaced _ _ _ m0, pictureFields_interlaced _ _ _ m1]
      simp [t0, t1, r0, r1]
    refine ⟨_, rffCreate_registered c d vi (by rw [hN]; exact hr), ?_, ?_, ?_, ?_⟩
    · simp only [hN, hs]; decide
    · simp only [hN, hs]; decide
    · simp only [hN, hs]; decide
    · simp only [hN, hs]; decide

theorem double_repeat_three_frames_witness :
    (InRange dgindexBits pulldownTwo 2
      ∧ readFlags dgindexBits pulldownTwo 0
          = some { rff := true, tff := true, progressive_frame := false,
                   progressive_sequence := false }
      ∧ readFlags dgindexBits pulldownTwo 1
          = some { rff := true, tff := true, progressive_frame := false,
                   progressive_sequence := false }
      ∧ (scheduleOf dgindexBits pulldownTwo 0).length = 2 * 0)
    ∧ ∃ data, rffCreate dgindexBits (Except.ok pulldownTwo) (clipInfo 2)
          = CreateResult.registered data
        ∧ data.vi.numFrames = 3
        ∧ framePair data.fields 1
            = some ({ frame := 0, type := rffFieldType.Top },
                    { frame := 1, type := rffFieldType.Top }) :=
  ⟨⟨by decide, by decide, by decide, by decide⟩,
   (double_repeat_three_frames.2 dgindexBits pulldownTwo (clipInfo 2)
      { rff := true, tff := true, progressive_frame := false, progressive_sequence := false }
      { rff := true, tff := true, progressive_frame := false, progressive_sequence := false }
      (by decide) (by decide) (by decide) (by decide) (by decide) rfl rfl rfl rfl).imp
    (fun _ h => ⟨h.1, h.2.1, h.2.2.2.1⟩)⟩

/-! ## Lemmas on the synthesizer -/

theorem selectFields_index (d : rffData) (n : Nat) (tf bf : rffFieldPtr)
    (h : selectFields d n = some (tf, bf)) :
    d.fields[tf.index]? = some tf.target ∧ d.fields[bf.index]? = some bf.target
      ∧ ((tf.index = n * 2 ∧ bf.index = n * 2 + 1) ∨ (tf.index = n * 2 + 1 ∧ bf.index = n * 2)) := by
  unfold selectFields at h
  cases ha : d.fields[n * 2]? with
  | none => simp [ha] at h
  | some a =>
    cases hb : d.fields[n * 2 + 1]? with
    | none => simp [ha, hb] at h
    | some b =>
      simp only [ha, hb] at h
      split at h
      · injection h with h
        injection h with h1 h2
        subst h1 h2
        exact ⟨hb, ha, Or.inr ⟨rfl, rfl⟩⟩
      · injection h with h
        injection h with h1 h2
        subst h1 h2
        exact ⟨ha, hb, Or.inl ⟨rfl, rfl⟩⟩

theorem rffGetFrame_same (n : Nat) (d : rffData) (node : Nat → VSFrame) (fresh : VSFrame)
    (tf bf : rffFieldPtr) (h : selectFields d n = some (tf, bf))
    (hsame : tf.target.frame = bf.target.frame) :
    rffGetFrame n VSActivationReason.arAllFramesReady d node fresh
      = some { calls := [VSCall.getFrameFilter tf.target.frame,
                         VSCall.copyFrame tf.target.frame,
                         VSCall.freeFrame tf.target.frame]
               frame := some (node tf.target.frame) } := by
  simp [rffGetFrame, h, hsame, copyFrame]

theorem rffGetFrame_woven (n : Nat) (d : rffData) (node : Nat → VSFrame) (fresh : VSFrame)
    (tf bf : rffFieldPtr) (h : selectFields d n = some (tf, bf))
    (hdiff : tf.target.frame ≠ bf.target.frame) :
    rffGetFrame n VSActivationReason.arAllFramesReady d node fresh
      = some
          { calls := [VSCall.getFrameFilter tf.target.frame,
                      VSCall.getFrameFilter bf.target.frame,
                      VSCall.newVideoFrame
                        (if bf.index < tf.index then bf.target.frame else tf.target.frame),
                      VSCall.mapSetInt "_FieldBased" (if bf.index < tf.index then 1 else 2),
                      VSCall.freeFrame tf.target.frame,
                      VSCall.freeFrame bf.target.frame]
            frame := some
              { weaveLoop d.vi.format.bytesPerSample (node tf.target.frame)
                  (node bf.target.frame) d.vi.format.numPlanes 0
                  (newVideoFrame fresh
                    (if bf.index < tf.index then node bf.target.frame
                     else node tf.target.frame)) with
                props := mapSetInt
                  (weaveLoop d.vi.format.bytesPerSample (node tf.target.frame)
                    (node bf.target.frame) d.vi.format.numPlanes 0
                    (newVideoFrame fresh
                      (if bf.index < tf.index then node bf.target.frame
                       else node tf.target.frame))).props
                  "_FieldBased" (if bf.index < tf.index then 1 else 2) } } := by
  simp [rffGetFrame, h, hdiff]

theorem memcpy_length (dst : List Nat) (dstp : Nat) (src : List Nat) (srcp n : Nat) :
    (memcpy dst dstp src srcp n).length = dst.length := by
  induction n with
  | zero => rfl
  | succ n ih => simp [memcpy, ih]

theorem memcpy_getD (dst : List Nat) (dstp : Nat) (src : List Nat) (srcp n x : Nat)
    (hx : x < dst.length) :
    (memcpy dst dstp src srcp n).getD x 0
      = if dstp ≤ x ∧ x < dstp + n then src.getD (srcp + (x - dstp)) 0 else dst.getD x 0 := by
  induction n with
  | zero =>
    simp only [memcpy]
    rw [if_neg (by omega)]
  | succ n ih =>
    simp only [memcpy, List.getD_eq_getElem?_getD, List.getElem?_set, memcpy_length]
    simp only [List.getD_eq_getElem?_getD] at ih
    by_cases h1 : dstp + n = x
    · subst h1
      simp [hx]
    · rw [if_neg h1, ih]
      by_cases h2 : dstp ≤ x ∧ x < dstp + n
      · rw [if_pos h2, if_pos ⟨h2.1, by omega⟩]
      · rw [if_neg h2, if_neg (by omega)]

theorem bitblt_length (dst : List Nat) (dstp dst_stride : Nat) (src : List Nat)
    (srcp src_stride row_size height : Nat) :
    (bitblt dst dstp dst_stride src srcp src_stride row_size height).length = dst.length := by
  induction height with
  | zero => rfl
  | succ h ih => simp [bitblt, memcpy_length, ih]

/-- A byte outside every destination row of a block copy keeps its value. -/
theorem bitblt_getD_miss (dst : List Nat) (dstp dst_stride : Nat) (src : List Nat)
    (srcp src_stride row_size height x : Nat) (hx : x < dst.length)
    (hmiss : ∀ r, r < height → x < dstp + r * dst_stride ∨ dstp + r * dst_stride + row_size ≤ x) :
    (bitblt dst dstp dst_stride src srcp src_stride row_size height).getD x 0 = dst.getD x 0 := by
  induction height with
  | zero => rfl
  | succ h ih =>
    simp only [bitblt]
    rw [memcpy_getD _ _ _ _ _ _ (by rw [bitblt_length]; exact hx)]
    have hm := hmiss h (Nat.lt_succ_self h)
    rw [if_neg (by omega)]
    exact ih (fun r hr => hmiss r (Nat.lt_succ_of_lt hr))

/-- Byte `j` of destination row `r` of a block copy is byte `j` of source row `r`. -/
theorem bitblt_getD_hit (dst : List Nat) (dstp dst_stride : Nat) (src : List Nat)
    (srcp src_stride row_size height r j : Nat) (hr : r < height) (hj : j < row_size)
    (hrs : row_size ≤ dst_stride) (hx : dstp + r * dst_stride + j < dst.length) :
    (bitblt dst dstp dst_stride src srcp src_stride row_size height).getD
        (dstp + r * dst_stride + j) 0
      = src.getD (srcp + r * src_stride + j) 0 := by
  induction height with
  | zero => omega
  | succ h ih =>
    simp only [bitblt]
    rw [memcpy_getD _ _ _ _ _ _ (by rw [bitblt_length]; exact hx)]
    by_cases hrh : r = h
    · subst hrh
      rw [if_pos (by omega)]
      congr 1
      omega
    · have hlt : r < h := by omega
      have hmul : (r + 1) * dst_stride ≤ h * dst_stride := Nat.mul_le_mul_right _ hlt
      rw [Nat.succ_mul] at hmul
      rw [if_neg (by omega)]
      exact ih hlt


theorem getPlane_setPlaneData_self (f : VSFrame) (i : Nat) (data : List Nat)
    (hi : i < f.planes.length) :
    getPlane (setPlaneData f i data) i = { getPlane f i with data := data } := by
  simp [getPlane, setPlaneData, List.getD_eq_getElem?_getD, List.getElem?_set, hi]

theorem getPlane_setPlaneData_ne (f : VSFrame) (i j : Nat) (data : List Nat) (hij : i ≠ j) :
    getPlane (setPlaneData f i data) j = getPlane f j := by
  simp [getPlane, setPlaneData, List.getD_eq_getElem?_getD, List.getElem?_set, hij]

theorem weavePlane_planes_length (bps : Nat) (st sb : VSFrame) (i : Nat) (f : VSFrame) :
    (weavePlane bps st sb i f).planes.length = f.planes.length := by
  simp [weavePlane, setPlaneData]

theorem weavePlane_props (bps : Nat) (st sb : VSFrame) (i : Nat) (f : VSFrame) :
    (weavePlane bps st sb i f).props = f.props := by
  simp [weavePlane, setPlaneData]

theorem weavePlane_getPlane_ne (bps : Nat) (st sb : VSFrame) (i j : Nat) (f : VSFrame)
    (hij : i ≠ j) : getPlane (weavePlane bps st sb i f) j = getPlane f j := by
  unfold weavePlane
  exact getPlane_setPlaneData_ne _ _ _ _ hij

theorem weavePlane_getPlane_congr (bps : Nat) (st sb : VSFrame) (i : Nat) (f g : VSFrame)
    (hf : i < f.planes.length) (hg : i < g.planes.length) (h : getPlane f i = getPlane g i) :
    getPlane (weavePlane bps st sb i f) i = getPlane (weavePlane bps st sb i g) i := by
  unfold weavePlane
  simp only [getPlane_setPlaneData_self _ _ _ hf, getPlane_setPlaneData_self _ _ _ hg, h]

theorem weaveLoop_planes_length (bps : Nat) (st sb : VSFrame) (k : Nat) :
    ∀ (i : Nat) (f : VSFrame), (weaveLoop bps st sb k i f).planes.length = f.planes.length := by
  induction k with
  | zero => intro i f; rfl
  | succ k ih => intro i f; simp [weaveLoop, ih, weavePlane_planes_length]

theorem weaveLoop_props (bps : Nat) (st sb : VSFrame) (k : Nat) :
    ∀ (i : Nat) (f : VSFrame), (weaveLoop bps st sb k i f).props = f.props := by
  induction k with
  | zero => intro i f; rfl
  | succ k ih => intro i f; simp [weaveLoop, ih, weavePlane_props]

theorem weaveLoop_getPlane_lt (bps : Nat) (st sb : VSFrame) (k : Nat) :
    ∀ (i : Nat) (f : VSFrame) (j : Nat), j < i →
      getPlane (weaveLoop bps st sb k i f) j = getPlane f j := by
  induction k with
  | zero => intro i f j _; rfl
  | succ k ih =>
    intro i f j hj
    simp only [weaveLoop]
    rw [ih (i + 1) _ j (by omega), weavePlane_getPlane_ne _ _ _ _ _ _ (by omega)]

/-- The loop over the planes weaves plane `j` once, from the frame as allocated. -/
theorem weaveLoop_getPlane (bps : Nat) (st sb : VSFrame) (k : Nat) :
    ∀ (i : Nat) (f : VSFrame) (j : Nat), i ≤ j → j < i + k → j < f.planes.length →
      getPlane (weaveLoop bps st sb k i f) j = getPlane (weavePlane bps st sb j f) j := by
  induction k with
  | zero => intro i f j h1 h2; omega
  | succ k ih =>
    intro i f j h1 h2 h3
    simp only [weaveLoop]
    by_cases hij : i = j
    · subst hij
      exact weaveLoop_getPlane_lt bps st sb k (i + 1) _ i (Nat.lt_succ_self i)
    · rw [ih (i + 1) _ j (by omega) (by omega) (by rw [weavePlane_planes_length]; exact h3)]
      exact weavePlane_getPlane_congr bps st sb j _ f
        (by rw [weavePlane_planes_length]; exact h3) h3
        (weavePlane_getPlane_ne bps st sb i j f hij)

/-- Rows below `2 * (height / 2)` of a woven plane: even rows come from the
same row of `st`, odd rows from the same row of `sb`. -/
theorem weavePlane_getD (bps : Nat) (st sb : VSFrame) (i : Nat) (f : VSFrame) (y j : Nat)
    (hi : i < f.planes.length)
    (hsize : (getPlane f i).stride * (getPlane f i).height ≤ (getPlane f i).data.length)
    (hrs : (getPlane f i).width * bps ≤ (getPlane f i).stride)
    (hy : y < 2 * ((getPlane f i).height / 2)) (hj : j < (getPlane f i).width * bps) :
    (getPlane (weavePlane bps st sb i f) i).data.getD (y * (getPlane f i).stride + j) 0
      = if y % 2 = 0 then (getPlane st i).data.getD (y * (getPlane st i).stride + j) 0
        else (getPlane sb i).data.getD (y * (getPlane sb i).stride + j) 0 := by
  unfold weavePlane
  rw [getPlane_setPlaneData_self _ _ _ hi]
  generalize (getPlane f i).stride = ds at *
  generalize (getPlane f i).height = h at *
  generalize (getPlane f i).width * bps = rs at *
  generalize (getPlane f i).data = dst at *
  generalize (getPlane st i).stride = ss
  generalize (getPlane sb i).stride = sB
  simp only []
  have hyh : (y + 1) * ds ≤ h * ds := Nat.mul_le_mul_right _ (by omega)
  rw [Nat.succ_mul] at hyh
  rw [Nat.mul_comm ds h] at hsize
  have hx : y * ds + j < dst.length := by omega
  by_cases hpar : y % 2 = 0
  · rw [if_pos hpar]
    obtain ⟨r, rfl⟩ : ∃ r, y = 2 * r := ⟨y / 2, by omega⟩
    have e1 : 2 * r * ds = r * (ds * 2) := by ring
    have e2 : 2 * r * ss = r * (ss * 2) := by ring
    rw [bitblt_getD_miss _ _ _ _ _ _ _ _ _ (by rw [bitblt_length]; exact hx)]
    · have := bitblt_getD_hit dst 0 (ds * 2) (getPlane st i).data 0 (ss * 2) rs (h / 2) r j
        (by omega) hj (by omega) (by omega)
      simp only [Nat.zero_add] at this
      rw [e1, e2, this]
    · intro r' hr'
      rcases Nat.lt_or_ge r' r with hlt | hge
      · have := Nat.mul_le_mul_right (ds * 2) (Nat.succ_le_of_lt hlt)
        rw [Nat.succ_mul] at this
        right; omega
      · have := Nat.mul_le_mul_right (ds * 2) hge
        left; omega
  · rw [if_neg hpar]
    obtain ⟨r, rfl⟩ : ∃ r, y = 2 * r + 1 := ⟨y / 2, by omega⟩
    have e1 : (2 * r + 1) * ds = ds + r * (ds * 2) := by ring
    have e2 : (2 * r + 1) * sB = sB + r * (sB * 2) := by ring
    rw [e1, e2]
    exact bitblt_getD_hit _ ds (ds * 2) (getPlane sb i).data sB (sB * 2) rs (h / 2) r j
      (by omega) hj (by omega) (by rw [bitblt_length]; omega)


theorem weavePlane_stride (bps : Nat) (st sb : VSFrame) (i : Nat) (f : VSFrame)
    (hi : i < f.planes.length) :
    (getPlane (weavePlane bps st sb i f) i).stride = (getPlane f i).stride := by
  unfold weavePlane
  rw [getPlane_setPlaneData_self _ _ _ hi]

/-- Rows below `2 * (height / 2)` of a woven output frame: even rows are the
rows of the top reference's picture, odd rows those of the bottom reference's. -/
theorem rffGetFrame_woven_rows (n : Nat) (d : rffData) (node : Nat → VSFrame) (fresh : VSFrame)
    (tf bf : rffFieldPtr) (h : selectFields d n = some (tf, bf))
    (hdiff : tf.target.frame ≠ bf.target.frame) (pl y : Nat)
    (hpl : pl < d.vi.format.numPlanes) (hfp : pl < fresh.planes.length)
    (hsize : (getPlane fresh pl).stride * (getPlane fresh pl).height
      ≤ (getPlane fresh pl).data.length)
    (hrs : (getPlane fresh pl).width * d.vi.format.bytesPerSample ≤ (getPlane fresh pl).stride)
    (hy : y < 2 * ((getPlane fresh pl).height / 2)) :
    ∃ r f, rffGetFrame n VSActivationReason.arAllFramesReady d node fresh = some r
      ∧ r.frame = some f
      ∧ rowBytes (getPlane f pl) ((getPlane fresh pl).width * d.vi.format.bytesPerSample) y
          = rowBytes (getPlane (node (if y % 2 = 0 then tf.target.frame else bf.target.frame)) pl)
              ((getPlane fresh pl).width * d.vi.format.bytesPerSample) y := by
  refine ⟨_, _, rffGetFrame_woven n d node fresh tf bf h hdiff, rfl, ?_⟩
  generalize hps : (if bf.index < tf.index then node bf.target.frame
    else node tf.target.frame) = ps
  have hg : getPlane
      { weaveLoop d.vi.format.bytesPerSample (node tf.target.frame) (node bf.target.frame)
          d.vi.format.numPlanes 0 (newVideoFrame fresh ps) with
        props := mapSetInt
          (weaveLoop d.vi.format.bytesPerSample (node tf.target.frame) (node bf.target.frame)
            d.vi.format.numPlanes 0 (newVideoFrame fresh ps)).props
          "_FieldBased" (if bf.index < tf.index then 1 else 2) } pl
      = getPlane (weavePlane d.vi.format.bytesPerSample (node tf.target.frame)
          (node bf.target.frame) pl (newVideoFrame fresh ps)) pl := by
    rw [← weaveLoop_getPlane d.vi.format.bytesPerSample (node tf.target.frame)
      (node bf.target.frame) d.vi.format.numPlanes 0 (newVideoFrame fresh ps) pl
      (Nat.zero_le _) (by omega) hfp]
    rfl
  rw [hg]
  have hfresh : getPlane (newVideoFrame fresh ps) pl = getPlane fresh pl := rfl
  have hfp2 : pl < (newVideoFrame fresh ps).planes.length := hfp
  unfold rowBytes
  rw [weavePlane_stride _ _ _ _ _ hfp2, hfresh]
  apply List.map_congr_left
  intro j hj
  have hj2 : j < (getPlane fresh pl).width * d.vi.format.bytesPerSample :=
    List.mem_range.mp hj
  have key := weavePlane_getD d.vi.format.bytesPerSample (node tf.target.frame)
    (node bf.target.frame) pl (newVideoFrame fresh ps) y j hfp2
    (by rw [hfresh]; exact hsize) (by rw [hfresh]; exact hrs) (by rw [hfresh]; exact hy)
    (by rw [hfresh]; exact hj2)
  rw [hfresh] at key
  rw [key]
  by_cases hpar : y % 2 = 0
  · simp only [hpar, if_true]
  · simp only [hpar, if_false]

/-! ## The claims on the synthesizer -/

/-- C8, the code at a plane of odd height: the filter built from two
interlaced top-field-first pictures with the repeat flag, on a clip with one
plane of 3 rows, weaves output frame 1 from pictures 0 (top) and 1 (bottom);
rows 0 and 1 are the source rows, but row 2 is never written: it holds the
bytes `b4, b5` the allocator left there, not row 2 of picture 0. -/
theorem weave_leaves_last_row_of_odd_height :
    rffCreate dgindexBits (Except.ok pulldownTwo) { (pulldownTwoData 3).vi with numFrames := 2 }
        = CreateResult.registered (pulldownTwoData 3)
    ∧ selectFields (pulldownTwoData 3) 1
        = some ({ index := 2, target := { frame := 0, type := rffFieldType.Top } },
                { index := 3, target := { frame := 1, type := rffFieldType.Top } })
    ∧ ∀ b0 b1 b2 b3 b4 b5 : Nat,
        ∃ r f, rffGetFrame 1 VSActivationReason.arAllFramesReady (pulldownTwoData 3) (grayClip 3)
            (freshGray 3 [b0, b1, b2, b3, b4, b5]) = some r
          ∧ r.frame = some f
          ∧ rowBytes (getPlane f 0) 2 0 = rowBytes (getPlane (grayClip 3 0) 0) 2 0
          ∧ rowBytes (getPlane f 0) 2 1 = rowBytes (getPlane (grayClip 3 1) 0) 2 1
          ∧ rowBytes (getPlane f 0) 2 2 = [b4, b5]
          ∧ rowBytes (getPlane (grayClip 3 0) 0) 2 2 = [104, 105] := by
  have hsel : selectFields (pulldownTwoData 3) 1
      = some ({ index := 2, target := { frame := 0, type := rffFieldType.Top } },
              { index := 3, target := { frame := 1, type := rffFieldType.Top } }) := by decide
  refine ⟨by decide, hsel, ?_⟩
  intro b0 b1 b2 b3 b4 b5
  refine ⟨_, _, rffGetFrame_woven _ _ _ _ _ _ hsel (by decide), rfl, ?_, ?_, ?_, ?_⟩ <;>
    simp [rowBytes, getPlane, weaveLoop, weavePlane, setPlaneData, bitblt, memcpy, newVideoFrame,
      freshGray, grayClip, grayPlane, pulldownTwoData, List.range_succ]

/-- C9: when the top and the bottom reference of an output frame have the
same source index, whatever their kinds, the frame returned is the copy of
that source picture (planes and properties unchanged) and no `mapSetInt` is
issued, so no field-order tag is set on it. -/
theorem same_source_is_copy (n : Nat) (d : rffData) (node : Nat → VSFrame) (fresh : VSFrame)
    (tf bf : rffFieldPtr) (h : selectFields d n = some (tf, bf))
    (hsame : tf.target.frame = bf.target.frame) :
    ∃ r, rffGetFrame n VSActivationReason.arAllFramesReady d node fresh = some r
      ∧ r.frame = some (copyFrame (node tf.target.frame))
      ∧ (∀ f, r.frame = some f →
          f.planes = (node tf.target.frame).planes ∧ f.props = (node tf.target.frame).props)
      ∧ VSCall.copyFrame tf.target.frame ∈ r.calls
      ∧ ∀ key v, VSCall.mapSetInt key v ∉ r.calls := by
  refine ⟨_, rffGetFrame_same n d node fresh tf bf h hsame, rfl, ?_, by simp, by simp⟩
  intro f hf
  injection hf with hf
  subst hf
  exact ⟨rfl, rfl⟩

theorem same_source_is_copy_witness :
    (selectFields (pulldownTwoData 4) 2
        = some ({ index := 5, target := { frame := 1, type := rffFieldType.Top } },
                { index := 4, target := { frame := 1, type := rffFieldType.Bottom } }))
    ∧ ∃ r, rffGetFrame 2 VSActivationReason.arAllFramesReady (pulldownTwoData 4) (grayClip 4)
          (freshGray 4 (List.replicate 8 0)) = some r
        ∧ r.frame = some (grayClip 4 1) :=
  ⟨by decide,
   (same_source_is_copy 2 (pulldownTwoData 4) (grayClip 4) (freshGray 4 (List.replicate 8 0))
      { index := 5, target := { frame := 1, type := rffFieldType.Top } }
      { index := 4, target := { frame := 1, type := rffFieldType.Bottom } }
      (by decide) rfl).imp
    (fun _ h => ⟨h.1, h.2.1⟩)⟩

/-- C10: the synthesizer issues `mapSetInt "_FieldBased"` exactly when the
two references have different source indices; the value it sets is 1
(bottom-first) exactly when the entry used as bottom field is stored before
the entry used as top field, and 2 (top-first) otherwise, and the returned
frame carries that value. -/
theorem field_order_tag (n : Nat) (d : rffData) (node : Nat → VSFrame) (fresh : VSFrame)
    (tf bf : rffFieldPtr) (h : selectFields d n = some (tf, bf)) :
    ∃ r, rffGetFrame n VSActivationReason.arAllFramesReady d node fresh = some r
      ∧ ((∃ v, VSCall.mapSetInt "_FieldBased" v ∈ r.calls)
          ↔ tf.target.frame ≠ bf.target.frame)
      ∧ (∀ v, VSCall.mapSetInt "_FieldBased" v ∈ r.calls →
          (v = 1 ↔ bf.index < tf.index) ∧ (v = 2 ↔ ¬ bf.index < tf.index)
          ∧ ∃ f, r.frame = some f ∧ getProp f "_FieldBased" = some v) := by
  by_cases hs : tf.target.frame = bf.target.frame
  · refine ⟨_, rffGetFrame_same n d node fresh tf bf h hs, ?_, ?_⟩
    · simp [hs]
    · intro v hv
      simp at hv
  · refine ⟨_, rffGetFrame_woven n d node fresh tf bf h hs, ?_, ?_⟩
    · simp [hs]
    · intro v hv
      simp only [List.mem_cons, List.mem_singleton, VSCall.mapSetInt.injEq, true_and,
        List.not_mem_nil, or_false, false_or, reduceCtorEq] at hv
      subst hv
      refine ⟨?_, ?_, _, rfl, ?_⟩
      · by_cases hlt : bf.index < tf.index <;> simp [hlt]
      · by_cases hlt : bf.index < tf.index <;> simp [hlt]
      · simp [getProp, mapSetInt]

theorem field_order_tag_witness :
    (selectFields (pulldownTwoData 4) 1
        = some ({ index := 2, target := { frame := 0, type := rffFieldType.Top } },
                { index := 3, target := { frame := 1, type := rffFieldType.Top } }))
    ∧ ∃ r, rffGetFrame 1 VSActivationReason.arAllFramesReady (pulldownTwoData 4) (grayClip 4)
          (freshGray 4 (List.replicate 8 0)) = some r
        ∧ ((∃ v, VSCall.mapSetInt "_FieldBased" v ∈ r.calls) ↔ (0 : Nat) ≠ 1) :=
  ⟨by decide,
   (field_order_tag 1 (pulldownTwoData 4) (grayClip 4) (freshGray 4 (List.replicate 8 0))
      { index := 2, target := { frame := 0, type := rffFieldType.Top } }
      { index := 3, target := { frame := 1, type := rffFieldType.Top } }
      (by decide)).imp
    (fun _ h => ⟨h.1, h.2.1⟩)⟩


/-! ## Bounds, ordering and coverage of the schedule -/

theorem pictureFields_length_bounds (mpeg_type : Int) (i : Nat) (p : PictureFlags) :
    2 ≤ (pictureFields mpeg_type i p).length ∧ (pictureFields mpeg_type i p).length ≤ 6 := by
  cases hm : progressiveMode mpeg_type p
  · rw [pictureFields_interlaced _ _ _ hm]
    cases p.rff <;> simp
  · rw [pictureFields_progressive _ _ _ hm]
    cases p.rff <;> cases p.tff <;> simp

theorem scheduleOf_length_bounds (c : FlagBits) (d : d2vcontext) (n : Nat) (h : InRange c d n) :
    2 * n ≤ (scheduleOf c d n).length ∧ (scheduleOf c d n).length ≤ 6 * n := by
  induction n with
  | zero => simp [scheduleOf_zero]
  | succ n ih =>
    have hn : InRange c d n := InRange_mono (Nat.le_succ n) h
    obtain ⟨p, hp⟩ := InRange_flags h (Nat.lt_succ_self n)
    have hb := pictureFields_length_bounds d.mpeg_type n p
    have := ih hn
    rw [scheduleOf_succ c d n p hn hp, List.length_append]
    omega

/-- An index below the registered frame count is below half the schedule
length, whether or not the narrowing to `int` wrapped. -/
theorem lt_half_of_lt_numFrames (len n : Nat)
    (h : (n : Int) < Int.tdiv (castInt len) 2) : n < len / 2 := by
  unfold castInt at h
  split at h
  · rw [tdiv_two_natCast] at h
    have h1 : n < len % 2 ^ 32 / 2 := by exact_mod_cast h
    have h2 : len % 2 ^ 32 ≤ len := Nat.mod_le _ _
    omega
  · exfalso
    have hm : len % 2 ^ 32 < 2 ^ 32 := Nat.mod_lt _ (by decide)
    have hneg : ((len % 2 ^ 32 : Nat) : Int) - 2 ^ 32
        = -(((2 ^ 32 - len % 2 ^ 32 : Nat)) : Int) := by
      omega
    rw [hneg, Int.neg_tdiv, tdiv_two_natCast] at h
    omega


/-- C15, the claim as stated fails: a picture of codec 264 flagged
progressive-frame, repeat and top-field-first gets 6 entries, and so does a
picture of codec 2 in a progressive sequence flagged repeat and
top-field-first; so neither family is free of tripling. -/
theorem both_codec_families_triple :
    rffBody dgindexBits h264Triple 0 []
        = some (List.replicate 6 { frame := 0, type := rffFieldType.Progressive })
    ∧ rffBody dgindexBits progressiveThree 2 []
        = some (List.replicate 6 { frame := 2, type := rffFieldType.Progressive })
    ∧ h264Triple.mpeg_type = 264 ∧ progressiveThree.mpeg_type ≠ 264
    ∧ ¬ ((∀ i p, (pictureFields 264 i p).length ≠ 6)
          ∨ (∀ mpeg_type i p, mpeg_type ≠ 264 → (pictureFields mpeg_type i p).length ≠ 6)) := by
  refine ⟨by decide, by decide, by decide, by decide, ?_⟩
  rintro (h | h)
  · exact h 0 { rff := true, tff := true, progressive_frame := true,
                progressive_sequence := false } (by decide)
  · exact h 2 0 { rff := true, tff := true, progressive_frame := false,
                  progressive_sequence := true } (by decide) (by decide)

/-- C15, amended: in either codec family the builder appends 6 entries for a
picture exactly when repeat and top-field-first are both set and the picture
is progressive-mode (progressive sequence, or progressive frame with codec
264); for a codec other than 264 that is exactly repeat, top-field-first and
progressive sequence, so the progressive-frame flag alone never triples there. -/
theorem six_entries_iff (c : FlagBits) (d : d2vcontext) (i : Nat) (p : PictureFlags)
    (fields : List rffField) (hp : readFlags c d i = some p) :
    rffBody c d i fields = some (fields ++ pictureFields d.mpeg_type i p)
    ∧ ((pictureFields d.mpeg_type i p).length = 6
        ↔ (p.rff = true ∧ p.tff = true
            ∧ (p.progressive_sequence = true
                ∨ (p.progressive_frame = true ∧ d.mpeg_type = 264))))
    ∧ (d.mpeg_type ≠ 264 →
        ((pictureFields d.mpeg_type i p).length = 6
          ↔ (p.rff = true ∧ p.tff = true ∧ p.progressive_sequence = true))) := by
  have hmode : progressiveMode d.mpeg_type p = true
      ↔ (p.progressive_sequence = true ∨ (p.progressive_frame = true ∧ d.mpeg_type = 264)) := by
    simp [progressiveMode]
  have key : (pictureFields d.mpeg_type i p).length = 6
      ↔ (p.rff = true ∧ p.tff = true ∧ progressiveMode d.mpeg_type p = true) := by
    cases hm : progressiveMode d.mpeg_type p
    · rw [pictureFields_interlaced _ _ _ hm]
      cases p.rff <;> simp
    · rw [pictureFields_progressive _ _ _ hm]
      cases p.rff <;> cases p.tff <;> simp
  refine ⟨by simp [rffBody, hp, appendFields_append], ?_, ?_⟩
  · rw [key, hmode]
  · intro hne
    rw [key, hmode]
    constructor
    · rintro ⟨h1, h2, h3 | h3⟩
      · exact ⟨h1, h2, h3⟩
      · exact absurd h3.2 hne
    · rintro ⟨h1, h2, h3⟩
      exact ⟨h1, h2, Or.inl h3⟩

theorem six_entries_iff_witness :
    readFlags dgindexBits h264Triple 0
        = some { rff := true, tff := true, progressive_frame := true,
                 progressive_sequence := false }
    ∧ ((pictureFields h264Triple.mpeg_type 0
          { rff := true, tff := true, progressive_frame := true,
            progressive_sequence := false }).length = 6
        ↔ (true = true ∧ true = true
            ∧ (false = true ∨ (true = true ∧ h264Triple.mpeg_type = 264)))) :=
  ⟨by decide,
   (six_entries_iff dgindexBits h264Triple 0
      { rff := true, tff := true, progressive_frame := true, progressive_sequence := false }
      [] (by decide)).2.1⟩

/-- C17: for `N` coded pictures (reads in range) the schedule length `L`
satisfies `2 * N ≤ L ≤ 6 * N`, and, the size fitting an `int`, the registered
output frame count lies between `N` and `3 * N`. -/
theorem schedule_length_bounds (c : FlagBits) (d : d2vcontext) (vi : VSVideoInfo)
    (hr : InRange c d vi.numFrames.toNat) :
    ∃ data, rffCreate c (Except.ok d) vi = CreateResult.registered data
      ∧ 2 * vi.numFrames.toNat ≤ data.fields.length
      ∧ data.fields.length ≤ 6 * vi.numFrames.toNat
      ∧ (data.fields.length < 2 ^ 31 →
          (vi.numFrames.toNat : Int) ≤ data.vi.numFrames
          ∧ data.vi.numFrames ≤ 3 * (vi.numFrames.toNat : Int)) := by
  obtain ⟨h1, h2⟩ := scheduleOf_length_bounds c d _ hr
  refine ⟨_, rffCreate_registered c d vi hr, h1, h2, ?_⟩
  intro hfit
  simp only [castInt_of_lt _ hfit, tdiv_two_natCast]
  constructor
  · have : vi.numFrames.toNat ≤ (scheduleOf c d vi.numFrames.toNat).length / 2 := by omega
    exact_mod_cast this
  · have : (scheduleOf c d vi.numFrames.toNat).length / 2 ≤ 3 * vi.numFrames.toNat := by omega
    exact_mod_cast this

theorem schedule_length_bounds_witness :
    InRange dgindexBits telecineFour 4
    ∧ ∃ data, rffCreate dgindexBits (Except.ok telecineFour) (clipInfo 4)
          = CreateResult.registered data
        ∧ 2 * 4 ≤ data.fields.length ∧ data.fields.length ≤ 6 * 4
        ∧ data.vi.numFrames = 5 :=
  ⟨by decide,
   (schedule_length_bounds dgindexBits telecineFour (clipInfo 4) (by decide)).imp
    (fun data h => ⟨h.1, h.2.1, h.2.2.1, by
      have heq := h.1
      rw [rffCreate_registered dgindexBits telecineFour (clipInfo 4) (by decide)] at heq
      injection heq with heq
      rw [← heq]
      decide⟩)⟩


theorem framePair_of_lt (fields : List rffField) (n : Nat) (h : n * 2 + 1 < fields.length) :
    ∃ a b, framePair fields n = some (a, b) ∧ a ∈ fields ∧ b ∈ fields := by
  have ha : fields[n * 2]? = some fields[n * 2] := List.getElem?_eq_getElem (by omega)
  have hb : fields[n * 2 + 1]? = some fields[n * 2 + 1] := List.getElem?_eq_getElem h
  refine ⟨fields[n * 2], fields[n * 2 + 1], ?_, List.getElem?_mem ha, List.getElem?_mem hb⟩
  simp only [framePair, ha, hb]

theorem framePair_getElem (fields : List rffField) (n : Nat) (a b : rffField)
    (h : framePair fields n = some (a, b)) :
    fields[n * 2]? = some a ∧ fields[n * 2 + 1]? = some b := by
  unfold framePair at h
  cases ha : fields[n * 2]? with
  | none => simp [ha] at h
  | some x =>
    cases hb : fields[n * 2 + 1]? with
    | none => simp [ha, hb] at h
    | some y =>
      simp only [ha, hb, Option.some.injEq, Prod.mk.injEq] at h
      rw [h.1, h.2]
      exact ⟨rfl, rfl⟩

/-- The references chosen for a frame, in terms of its stored pair. -/
theorem selectFields_of_framePair (d : rffData) (n : Nat) (a b : rffField)
    (h : framePair d.fields n = some (a, b)) :
    selectFields d n
      = some (if a.type = rffFieldType.Bottom then
                ({ index := n * 2 + 1, target := b }, { index := n * 2, target := a })
              else ({ index := n * 2, target := a }, { index := n * 2 + 1, target := b })) := by
  obtain ⟨ha, hb⟩ := framePair_getElem _ _ _ _ h
  unfold selectFields
  simp only [ha, hb]
  split <;> rfl

theorem rffGetFrame_initial (n : Nat) (d : rffData) (node : Nat → VSFrame) (fresh : VSFrame)
    (tf bf : rffFieldPtr) (h : selectFields d n = some (tf, bf)) :
    rffGetFrame n VSActivationReason.arInitial d node fresh
      = some
          { calls :=
              if tf.target.frame = bf.target.frame then
                [VSCall.requestFrameFilter tf.target.frame]
              else
                [VSCall.requestFrameFilter (min tf.target.frame bf.target.frame),
                 VSCall.requestFrameFilter (max tf.target.frame bf.target.frame)]
            frame := none } := by
  by_cases hs : tf.target.frame = bf.target.frame <;> simp [rffGetFrame, h, hs]

/-- C18: for `N` coded pictures (reads in range) and every output index `n`
below the registered frame count, positions `2n` and `2n + 1` lie inside the
schedule, both entries have a source index below `N`, and the pictures
requested in the initial phase all exist. -/
theorem frame_reads_in_range (c : FlagBits) (d : d2vcontext) (vi : VSVideoInfo)
    (hr : InRange c d vi.numFrames.toNat) :
    ∃ data, rffCreate c (Except.ok d) vi = CreateResult.registered data
      ∧ ∀ n : Nat, (n : Int) < data.vi.numFrames →
          n * 2 + 1 < data.fields.length
          ∧ (∃ a b, framePair data.fields n = some (a, b)
              ∧ a.frame < vi.numFrames.toNat ∧ b.frame < vi.numFrames.toNat)
          ∧ (∃ tf bf, selectFields data n = some (tf, bf)
              ∧ tf.target.frame < vi.numFrames.toNat ∧ bf.target.frame < vi.numFrames.toNat)
          ∧ ∀ node fresh, ∃ r,
              rffGetFrame n VSActivationReason.arInitial data node fresh = some r
              ∧ ∀ x ∈ requestedFrames r.calls, x < vi.numFrames.toNat := by
  refine ⟨_, rffCreate_registered c d vi hr, ?_⟩
  intro n hn
  have hlt := lt_half_of_lt_numFrames _ _ hn
  have hpos : n * 2 + 1 < (scheduleOf c d vi.numFrames.toNat).length := by omega
  obtain ⟨a, b, hab, hma, hmb⟩ := framePair_of_lt _ n hpos
  have hfa := scheduleOf_frame_lt c d _ hr a hma
  have hfb := scheduleOf_frame_lt c d _ hr b hmb
  have hsel := selectFields_of_framePair
    { d2v := d
      vi := { vi with
        numFrames := Int.tdiv (castInt (scheduleOf c d vi.numFrames.toNat).length) 2 }
      fields := scheduleOf c d vi.numFrames.toNat } n a b hab
  refine ⟨hpos, ⟨a, b, hab, hfa, hfb⟩, ?_, ?_⟩
  · by_cases hbot : a.type = rffFieldType.Bottom
    · rw [if_pos hbot] at hsel
      exact ⟨_, _, hsel, hfb, hfa⟩
    · rw [if_neg hbot] at hsel
      exact ⟨_, _, hsel, hfa, hfb⟩
  · intro node fresh
    by_cases hbot : a.type = rffFieldType.Bottom
    · rw [if_pos hbot] at hsel
      refine ⟨_, rffGetFrame_initial n _ node fresh _ _ hsel, ?_⟩
      intro x hx
      simp only [requestedFrames] at hx
      split at hx <;> simp at hx <;> omega
    · rw [if_neg hbot] at hsel
      refine ⟨_, rffGetFrame_initial n _ node fresh _ _ hsel, ?_⟩
      intro x hx
      simp only [requestedFrames] at hx
      split at hx <;> simp at hx <;> omega

theorem frame_reads_in_range_witness :
    InRange dgindexBits oddTwo 2
    ∧ ∃ data, rffCreate dgindexBits (Except.ok oddTwo) (clipInfo 2)
          = CreateResult.registered data
        ∧ data.fields.length = 5 ∧ data.vi.numFrames = 2
        ∧ 1 * 2 + 1 < data.fields.length :=
  ⟨by decide,
   (frame_reads_in_range dgindexBits oddTwo (clipInfo 2) (by decide)).imp
    (fun data h => by
      have heq := h.1
      rw [rffCreate_registered dgindexBits oddTwo (clipInfo 2) (by decide)] at heq
      injection heq with heq
      have hnum : data.vi.numFrames = 2 := by rw [← heq]; decide
      have hlen : data.fields.length = 5 := by rw [← heq]; decide
      exact ⟨h.1, hlen, hnum, (h.2 1 (by rw [hnum]; decide)).1⟩)⟩


theorem pictureFields_pairwise (mpeg_type : Int) (i : Nat) (p : PictureFlags)
    (R : rffField → rffField → Prop) (hR : ∀ a b : rffField, a.frame = b.frame → R a b) :
    (pictureFields mpeg_type i p).Pairwise R := by
  apply List.pairwise_of_forall_mem_list
  intro a ha b hb
  exact hR a b (by rw [pictureFields_frame _ _ _ a ha, pictureFields_frame _ _ _ b hb])

theorem scheduleOf_pairwise (c : FlagBits) (d : d2vcontext) (n : Nat) (h : InRange c d n) :
    (scheduleOf c d n).Pairwise (fun a b => a.frame ≤ b.frame) := by
  induction n with
  | zero => simp [scheduleOf_zero]
  | succ n ih =>
    have hn : InRange c d n := InRange_mono (Nat.le_succ n) h
    obtain ⟨p, hp⟩ := InRange_flags h (Nat.lt_succ_self n)
    rw [scheduleOf_succ c d n p hn hp, List.pairwise_append]
    refine ⟨ih hn, pictureFields_pairwise _ _ _ _ (fun a b hab => by omega), ?_⟩
    intro a ha b hb
    have h1 := scheduleOf_frame_lt c d n hn a ha
    have h2 := pictureFields_frame _ _ _ b hb
    omega

/-- Neighbouring entries of the schedule come from the same picture or from
two consecutive pictures, and the last entry comes from the last picture. -/
theorem scheduleOf_chain (c : FlagBits) (d : d2vcontext) (n : Nat) (h : InRange c d n) :
    (scheduleOf c d n).Chain' (fun a b => b.frame = a.frame ∨ b.frame = a.frame + 1)
      ∧ ∀ e ∈ (scheduleOf c d n).getLast?, e.frame + 1 = n := by
  induction n with
  | zero => simp [scheduleOf_zero]
  | succ n ih =>
    have hn : InRange c d n := InRange_mono (Nat.le_succ n) h
    obtain ⟨p, hp⟩ := InRange_flags h (Nat.lt_succ_self n)
    obtain ⟨hch, hlast⟩ := ih hn
    obtain ⟨x, y, tl, hcons⟩ := pictureFields_cons d.mpeg_type n p
    have hne : pictureFields d.mpeg_type n p ≠ [] := by rw [hcons]; simp
    rw [scheduleOf_succ c d n p hn hp]
    constructor
    · apply List.Chain'.append hch
      · exact (pictureFields_pairwise _ _ _ _ (fun a b hab => Or.inl hab.symm)).chain'
      · intro a ha b hb
        have h1 := hlast a ha
        have h2 : b.frame = n :=
          pictureFields_frame _ _ _ b (List.mem_of_mem_head? hb)
        right; omega
    · intro e he
      rw [List.getLast?_append_of_ne_nil _ hne] at he
      have := pictureFields_frame _ _ _ e (List.mem_of_mem_getLast? he)
      omega

/-- C16: in every schedule the builder produces (reads in range) the source
indices never decrease in storage order, and in every output frame the
second entry comes from the same picture as the first or from the next one. -/
theorem source_indices_ordered (c : FlagBits) (d : d2vcontext) (vi : VSVideoInfo)
    (hr : InRange c d vi.numFrames.toNat) :
    ∃ data, rffCreate c (Except.ok d) vi = CreateResult.registered data
      ∧ data.fields.Pairwise (fun a b => a.frame ≤ b.frame)
      ∧ (∀ k a b, framePair data.fields k = some (a, b) →
          b.frame = a.frame ∨ b.frame = a.frame + 1)
      ∧ ∀ k : Nat, (k : Int) < data.vi.numFrames →
          ∃ a b, framePair data.fields k = some (a, b)
            ∧ (b.frame = a.frame ∨ b.frame = a.frame + 1) := by
  have hadj : ∀ k a b, framePair (scheduleOf c d vi.numFrames.toNat) k = some (a, b) →
      b.frame = a.frame ∨ b.frame = a.frame + 1 := by
    intro k a b hab
    obtain ⟨ha, hb⟩ := framePair_getElem _ _ _ _ hab
    obtain ⟨hla, hga⟩ := List.getElem?_eq_some_iff.mp ha
    obtain ⟨hlb, hgb⟩ := List.getElem?_eq_some_iff.mp hb
    have := List.chain'_iff_get.mp (scheduleOf_chain c d _ hr).1 (k * 2) (by omega)
    simp only [List.get_eq_getElem, hga, hgb] at this
    exact this
  refine ⟨_, rffCreate_registered c d vi hr, scheduleOf_pairwise c d _ hr, hadj, ?_⟩
  intro k hk
  have hlt := lt_half_of_lt_numFrames _ _ hk
  obtain ⟨a, b, hab, _, _⟩ := framePair_of_lt (scheduleOf c d vi.numFrames.toNat) k (by omega)
  exact ⟨a, b, hab, hadj k a b hab⟩

theorem source_indices_ordered_witness :
    InRange dgindexBits telecineFour 4
    ∧ ∃ data, rffCreate dgindexBits (Except.ok telecineFour) (clipInfo 4)
          = CreateResult.registered data
        ∧ data.fields.Pairwise (fun a b => a.frame ≤ b.frame)
        ∧ framePair data.fields 2
            = some ({ frame := 1, type := rffFieldType.Top },
                    { frame := 2, type := rffFieldType.Bottom }) :=
  ⟨by decide,
   (source_indices_ordered dgindexBits telecineFour (clipInfo 4) (by decide)).imp
    (fun data h => by
      have heq := h.1
      rw [rffCreate_registered dgindexBits telecineFour (clipInfo 4) (by decide)] at heq
      injection heq with heq
      refine ⟨h.1, h.2.1, ?_⟩
      rw [← heq]
      decide)⟩

/-- C19: no coded picture is dropped: for `N` coded pictures (reads in range,
size fitting an `int`) every picture `i < N` is the source of an entry of some
output frame below the registered frame count, also when the schedule length
is odd and its last entry belongs to no frame. -/
theorem every_picture_used (c : FlagBits) (d : d2vcontext) (vi : VSVideoInfo) (i : Nat)
    (hr : InRange c d vi.numFrames.toNat)
    (hfit : (scheduleOf c d vi.numFrames.toNat).length < 2 ^ 31)
    (hi : i < vi.numFrames.toNat) :
    ∃ data, rffCreate c (Except.ok d) vi = CreateResult.registered data
      ∧ ∃ (k : Nat) (a b : rffField), (k : Int) < data.vi.numFrames
          ∧ framePair data.fields k = some (a, b) ∧ (a.frame = i ∨ b.frame = i) := by
  refine ⟨_, rffCreate_registered c d vi hr, ?_⟩
  simp only [castInt_of_lt _ hfit, tdiv_two_natCast]
  obtain ⟨p, hp⟩ := InRange_flags hr hi
  obtain ⟨rest, hrest, _⟩ := scheduleOf_split c d (i + 1) _ hi hr
  rw [scheduleOf_succ c d i p (InRange_mono (by omega) hr) hp] at hrest
  obtain ⟨x, y, tl, hcons⟩ := pictureFields_cons d.mpeg_type i p
  have hx : x.frame = i := pictureFields_frame _ _ _ x (by rw [hcons]; simp)
  have hy : y.frame = i := pictureFields_frame _ _ _ y (by rw [hcons]; simp)
  rw [hcons, List.append_assoc] at hrest
  have hgx : (scheduleOf c d vi.numFrames.toNat)[(scheduleOf c d i).length]? = some x := by
    rw [hrest, List.getElem?_append_right (Nat.le_refl _)]
    simp
  have hgy : (scheduleOf c d vi.numFrames.toNat)[(scheduleOf c d i).length + 1]? = some y := by
    rw [hrest, List.getElem?_append_right (by omega)]
    simp
  have hlx := (List.getElem?_eq_some_iff.mp hgx).1
  rcases Nat.even_or_odd' (scheduleOf c d i).length with ⟨k, hk | hk⟩
  · have hpair : framePair (scheduleOf c d vi.numFrames.toNat) k = some (x, y) := by
      have e1 : k * 2 = (scheduleOf c d i).length := by omega
      have e2 : k * 2 + 1 = (scheduleOf c d i).length + 1 := by omega
      simp only [framePair, e1, e2, hgx, hgy]
    exact ⟨k, x, y, by exact_mod_cast framePair_lt _ _ _ _ hpair, hpair, Or.inl hx⟩
  · have e1 : k * 2 + 1 = (scheduleOf c d i).length := by omega
    have hga : (scheduleOf c d vi.numFrames.toNat)[k * 2]?
        = some (scheduleOf c d vi.numFrames.toNat)[k * 2] :=
      List.getElem?_eq_getElem (by omega)
    have hpair : framePair (scheduleOf c d vi.numFrames.toNat) k
        = some ((scheduleOf c d vi.numFrames.toNat)[k * 2], x) := by
      simp only [framePair, e1, hga, hgx]
    exact ⟨k, _, x, by exact_mod_cast framePair_lt _ _ _ _ hpair, hpair, Or.inr hx⟩

theorem every_picture_used_witness :
    (InRange dgindexBits oddTwo 2 ∧ (scheduleOf dgindexBits oddTwo 2).length < 2 ^ 31
      ∧ (scheduleOf dgindexBits oddTwo 2).length % 2 = 1 ∧ 1 < 2)
    ∧ ∃ data, rffCreate dgindexBits (Except.ok oddTwo) (clipInfo 2)
          = CreateResult.registered data
        ∧ ∃ (k : Nat) (a b : rffField), (k : Int) < data.vi.numFrames
            ∧ framePair data.fields k = some (a, b) ∧ (a.frame = 1 ∨ b.frame = 1) :=
  ⟨⟨by decide, by decide, by decide, by decide⟩,
   every_picture_used dgindexBits oddTwo (clipInfo 2) 1 (by decide) (by decide) (by decide)⟩


/-! ## Which picture goes where in an output frame -/

theorem getProp_mapSetInt_self (props : List (String × Int)) (key : String) (v : Int)
    (planes : List VSPlane) :
    getProp { planes := planes, props := mapSetInt props key v } key = some v := by
  simp [getProp, mapSetInt]

theorem find?_filter_ne (props : List (String × Int)) (key k : String) (hk : k ≠ key) :
    (props.filter (fun kv => kv.1 != key)).find? (fun kv => kv.1 == k)
      = props.find? (fun kv => kv.1 == k) := by
  induction props with
  | nil => rfl
  | cons kv tl ih =>
    by_cases h1 : kv.1 = key
    · have hb1 : (kv.1 != key) = false := by simp [h1]
      have hb2 : (kv.1 == k) = false := by
        rw [beq_eq_false_iff_ne]
        exact fun h => hk (h.symm.trans h1)
      rw [List.filter_cons, List.find?_cons]
      simp only [hb1, hb2, Bool.false_eq_true, if_false]
      exact ih
    · have hb1 : (kv.1 != key) = true := by simp [h1]
      rw [List.filter_cons]
      simp only [hb1, if_true, List.find?_cons]
      rw [ih]

theorem getProp_mapSetInt_ne (props : List (String × Int)) (key k : String) (v : Int)
    (planes planes1 : List VSPlane) (hk : k ≠ key) :
    getProp { planes := planes, props := mapSetInt props key v } k
      = getProp { planes := planes1, props := props } k := by
  have hkey : (key == k) = false := by
    rw [beq_eq_false_iff_ne]
    exact fun h => hk h.symm
  simp only [getProp, mapSetInt, List.find?_cons, hkey, find?_filter_ne props key k hk]

theorem request_list_props (t u : Nat) :
    (if t = u then [t] else [min t u, max t u]).Nodup
    ∧ (if t = u then [t] else [min t u, max t u]).Pairwise (fun x y => x < y)
    ∧ ((if t = u then [t] else [min t u, max t u]).length = 1
        ∨ (if t = u then [t] else [min t u, max t u]).length = 2)
    ∧ ∀ x, x ∈ (if t = u then [t] else [min t u, max t u]) ↔ (x = t ∨ x = u) := by
  by_cases h : t = u
  · subst h
    simp
  · simp only [if_neg h]
    have hlt : min t u < max t u := by omega
    refine ⟨by simp; omega, by simp; omega, Or.inr rfl, ?_⟩
    intro x
    simp only [List.mem_cons, List.mem_singleton, List.not_mem_nil, or_false]
    omega

/-- C13: in the initial phase the frame callback returns no frame and issues
only `requestFrameFilter` calls: for the one source index when both
references share it, else for the smaller and then the larger of the two; the
requested list has no duplicates, is strictly ascending, has 1 or 2 elements,
and its elements are exactly the source indices of entries `2n` and `2n + 1`. -/
theorem initial_requests (n : Nat) (d : rffData) (node : Nat → VSFrame) (fresh : VSFrame)
    (a b : rffField) (h : framePair d.fields n = some (a, b)) :
    ∃ tf bf r, selectFields d n = some (tf, bf)
      ∧ rffGetFrame n VSActivationReason.arInitial d node fresh = some r
      ∧ r.frame = none
      ∧ r.calls = (requestedFrames r.calls).map VSCall.requestFrameFilter
      ∧ requestedFrames r.calls
          = (if tf.target.frame = bf.target.frame then [tf.target.frame]
             else [min tf.target.frame bf.target.frame, max tf.target.frame bf.target.frame])
      ∧ (requestedFrames r.calls).Nodup
      ∧ (requestedFrames r.calls).Pairwise (fun x y => x < y)
      ∧ ((requestedFrames r.calls).length = 1 ∨ (requestedFrames r.calls).length = 2)
      ∧ ∀ x, x ∈ requestedFrames r.calls ↔ (x = a.frame ∨ x = b.frame) := by
  have hsel := selectFields_of_framePair d n a b h
  have key : ∀ tf bf : rffFieldPtr, selectFields d n = some (tf, bf) →
      ((tf.target = a ∧ bf.target = b) ∨ (tf.target = b ∧ bf.target = a)) →
      ∃ r, rffGetFrame n VSActivationReason.arInitial d node fresh = some r
        ∧ r.frame = none
        ∧ r.calls = (requestedFrames r.calls).map VSCall.requestFrameFilter
        ∧ requestedFrames r.calls
            = (if tf.target.frame = bf.target.frame then [tf.target.frame]
               else [min tf.target.frame bf.target.frame,
                     max tf.target.frame bf.target.frame])
        ∧ (requestedFrames r.calls).Nodup
        ∧ (requestedFrames r.calls).Pairwise (fun x y => x < y)
        ∧ ((requestedFrames r.calls).length = 1 ∨ (requestedFrames r.calls).length = 2)
        ∧ ∀ x, x ∈ requestedFrames r.calls ↔ (x = a.frame ∨ x = b.frame) := by
    intro tf bf hs hab
    have hreq : requestedFrames
        (if tf.target.frame = bf.target.frame then
           [VSCall.requestFrameFilter tf.target.frame]
         else [VSCall.requestFrameFilter (min tf.target.frame bf.target.frame),
               VSCall.requestFrameFilter (max tf.target.frame bf.target.frame)])
        = (if tf.target.frame = bf.target.frame then [tf.target.frame]
           else [min tf.target.frame bf.target.frame,
                 max tf.target.frame bf.target.frame]) := by
      split <;> rfl
    obtain ⟨p1, p2, p3, p4⟩ := request_list_props tf.target.frame bf.target.frame
    refine ⟨_, rffGetFrame_initial n d node fresh tf bf hs, rfl, ?_, hreq, ?_, ?_, ?_, ?_⟩
    · simp only [hreq]
      split <;> rfl
    · simp only [hreq]; exact p1
    · simp only [hreq]; exact p2
    · simp only [hreq]; exact p3
    · intro x
      simp only [hreq]
      rw [p4 x]
      rcases hab with ⟨h1, h2⟩ | ⟨h1, h2⟩
      · rw [h1, h2]
      · rw [h1, h2]
        exact Or.comm
  by_cases hbot : a.type = rffFieldType.Bottom
  · rw [if_pos hbot] at hsel
    obtain ⟨r, hr⟩ := key _ _ hsel (Or.inr ⟨rfl, rfl⟩)
    exact ⟨_, _, r, hsel, hr⟩
  · rw [if_neg hbot] at hsel
    obtain ⟨r, hr⟩ := key _ _ hsel (Or.inl ⟨rfl, rfl⟩)
    exact ⟨_, _, r, hsel, hr⟩

theorem initial_requests_witness :
    framePair (pulldownTwoData 4).fields 1
        = some ({ frame := 0, type := rffFieldType.Top }, { frame := 1, type := rffFieldType.Top })
    ∧ ∃ r, rffGetFrame 1 VSActivationReason.arInitial (pulldownTwoData 4) (grayClip 4)
          (freshGray 4 (List.replicate 8 0)) = some r
        ∧ r.frame = none
        ∧ ∀ x, x ∈ requestedFrames r.calls ↔ (x = 0 ∨ x = 1) :=
  ⟨by decide,
   by
    obtain ⟨_, _, r, _, h2, h3, _, _, _, _, _, h9⟩ :=
      initial_requests 1 (pulldownTwoData 4) (grayClip 4) (freshGray 4 (List.replicate 8 0))
        { frame := 0, type := rffFieldType.Top } { frame := 1, type := rffFieldType.Top }
        (by decide)
    exact ⟨r, h2, h3, h9⟩⟩


/-- C14: when the two references of output frame `n` have different source
indices, `newVideoFrame` takes the properties of the picture of entry `2n`,
the one stored first, whichever entry is used as top: the composite carries
that picture's properties, with only `_FieldBased` replaced. -/
theorem composite_props_source (n : Nat) (d : rffData) (node : Nat → VSFrame) (fresh : VSFrame)
    (a b : rffField) (h : framePair d.fields n = some (a, b)) (hdiff : a.frame ≠ b.frame) :
    ∃ r f, rffGetFrame n VSActivationReason.arAllFramesReady d node fresh = some r
      ∧ r.frame = some f
      ∧ VSCall.newVideoFrame a.frame ∈ r.calls
      ∧ (∀ j, VSCall.newVideoFrame j ∈ r.calls → j = a.frame)
      ∧ (∃ v, f.props = mapSetInt (node a.frame).props "_FieldBased" v)
      ∧ ∀ key, key ≠ "_FieldBased" → getProp f key = getProp (node a.frame) key := by
  have hsel := selectFields_of_framePair d n a b h
  by_cases hbot : a.type = rffFieldType.Bottom
  · rw [if_pos hbot] at hsel
    have hw := rffGetFrame_woven n d node fresh _ _ hsel (fun e => hdiff e.symm)
    have hlt : n * 2 < n * 2 + 1 := Nat.lt_succ_self _
    simp only [hlt, if_true] at hw
    refine ⟨_, _, hw, rfl, by simp, by simp, ⟨1, ?_⟩, ?_⟩
    · simp only [weaveLoop_props]
      rfl
    · intro key hkey
      simp only [weaveLoop_props]
      exact getProp_mapSetInt_ne _ _ _ _ _ _ hkey
  · rw [if_neg hbot] at hsel
    have hw := rffGetFrame_woven n d node fresh _ _ hsel hdiff
    have hlt : ¬ n * 2 + 1 < n * 2 := by omega
    simp only [hlt, if_false] at hw
    refine ⟨_, _, hw, rfl, by simp, by simp, ⟨2, ?_⟩, ?_⟩
    · simp only [weaveLoop_props]
      rfl
    · intro key hkey
      simp only [weaveLoop_props]
      exact getProp_mapSetInt_ne _ _ _ _ _ _ hkey

theorem composite_props_source_witness :
    (framePair (mixedFourData 2).fields 1
        = some ({ frame := 0, type := rffFieldType.Top },
                { frame := 1, type := rffFieldType.Progressive })
      ∧ (0 : Nat) ≠ 1)
    ∧ ∃ r f, rffGetFrame 1 VSActivationReason.arAllFramesReady (mixedFourData 2) (grayClip 2)
          (freshGray 2 [0, 0, 0, 0]) = some r
        ∧ r.frame = some f
        ∧ getProp f "n" = getProp (grayClip 2 0) "n" :=
  ⟨⟨by decide, by decide⟩,
   by
    obtain ⟨r, f, h1, h2, _, _, _, h6⟩ :=
      composite_props_source 1 (mixedFourData 2) (grayClip 2) (freshGray 2 [0, 0, 0, 0])
        { frame := 0, type := rffFieldType.Top }
        { frame := 1, type := rffFieldType.Progressive } (by decide) (by decide)
    exact ⟨r, f, h1, h2, h6 "n" (by decide)⟩⟩

/-- For an output frame whose two entries have different source indices, the
kind of the first stored entry fixes the rows the weave writes and the tag:
with `Bottom` first, every row `y` below `2 * (height / 2)` of the allocated
plane is row `y` of the second entry's picture when `y` is even and of the
first entry's picture when `y` is odd, and the tag is 1; otherwise the two
pictures change places and the tag is 2. -/
theorem first_entry_rows_and_tag (n : Nat) (d : rffData) (node : Nat → VSFrame)
    (fresh : VSFrame) (a b : rffField) (h : framePair d.fields n = some (a, b))
    (hdiff : a.frame ≠ b.frame)
    (pl : Nat) (hpl : pl < d.vi.format.numPlanes) (hfp : pl < fresh.planes.length)
    (hsize : (getPlane fresh pl).stride * (getPlane fresh pl).height
      ≤ (getPlane fresh pl).data.length)
    (hrs : (getPlane fresh pl).width * d.vi.format.bytesPerSample ≤ (getPlane fresh pl).stride) :
    ∃ r f, rffGetFrame n VSActivationReason.arAllFramesReady d node fresh = some r
      ∧ r.frame = some f
      ∧ (a.type = rffFieldType.Bottom →
          (∀ y, y < 2 * ((getPlane fresh pl).height / 2) →
            rowBytes (getPlane f pl) ((getPlane fresh pl).width * d.vi.format.bytesPerSample) y
              = rowBytes (getPlane (node (if y % 2 = 0 then b.frame else a.frame)) pl)
                  ((getPlane fresh pl).width * d.vi.format.bytesPerSample) y)
          ∧ VSCall.mapSetInt "_FieldBased" 1 ∈ r.calls
          ∧ getProp f "_FieldBased" = some 1)
      ∧ (a.type ≠ rffFieldType.Bottom →
          (∀ y, y < 2 * ((getPlane fresh pl).height / 2) →
            rowBytes (getPlane f pl) ((getPlane fresh pl).width * d.vi.format.bytesPerSample) y
              = rowBytes (getPlane (node (if y % 2 = 0 then a.frame else b.frame)) pl)
                  ((getPlane fresh pl).width * d.vi.format.bytesPerSample) y)
          ∧ VSCall.mapSetInt "_FieldBased" 2 ∈ r.calls
          ∧ getProp f "_FieldBased" = some 2) := by
  have hsel := selectFields_of_framePair d n a b h
  by_cases hbot : a.type = rffFieldType.Bottom
  · rw [if_pos hbot] at hsel
    have hd : b.frame ≠ a.frame := fun e => hdiff e.symm
    have hw := rffGetFrame_woven n d node fresh _ _ hsel hd
    have hlt : n * 2 < n * 2 + 1 := Nat.lt_succ_self _
    refine ⟨_, _, hw, rfl, fun _ => ⟨?_, ?_, ?_⟩, fun hne => absurd hbot hne⟩
    · intro y hy
      obtain ⟨r1, f1, hr1, hf1, hrow⟩ :=
        rffGetFrame_woven_rows n d node fresh _ _ hsel hd pl y hpl hfp hsize hrs hy
      rw [hw] at hr1
      injection hr1 with hr1
      subst hr1
      injection hf1 with hf1
      subst hf1
      exact hrow
    · simp [hlt]
    · simp only [hlt, if_true]
      exact getProp_mapSetInt_self _ _ _ _
  · rw [if_neg hbot] at hsel
    have hw := rffGetFrame_woven n d node fresh _ _ hsel hdiff
    have hlt : ¬ n * 2 + 1 < n * 2 := by omega
    refine ⟨_, _, hw, rfl, fun hb => absurd hb hbot, fun _ => ⟨?_, ?_, ?_⟩⟩
    · intro y hy
      obtain ⟨r1, f1, hr1, hf1, hrow⟩ :=
        rffGetFrame_woven_rows n d node fresh _ _ hsel hdiff pl y hpl hfp hsize hrs hy
      rw [hw] at hr1
      injection hr1 with hr1
      subst hr1
      injection hf1 with hf1
      subst hf1
      exact hrow
    · simp [hlt]
    · simp only [hlt, if_false]
      exact getProp_mapSetInt_self _ _ _ _

/-- C20, the code at a plane of odd height.  On a clip with one plane of 3
rows the frame `(Top0, Top1)` is tagged 2 (top-first) with row 0 from picture
0 and row 1 from picture 1, and the frame `(Bot0, Bot1)` is tagged 1
(bottom-first) with row 1 from picture 0 and row 0 from picture 1, as the kind
of the first stored entry decides; but in both frames the even row 2 is never
written and holds the bytes `b4, b5` the allocator left, not row 2 of the
picture that supplies the even rows. -/
theorem first_entry_choice_at_odd_height :
    (rffCreate dgindexBits (Except.ok pulldownTwo) { (pulldownTwoData 3).vi with numFrames := 2 }
        = CreateResult.registered (pulldownTwoData 3)
      ∧ framePair (pulldownTwoData 3).fields 1
          = some ({ frame := 0, type := rffFieldType.Top },
                  { frame := 1, type := rffFieldType.Top })
      ∧ ∀ b0 b1 b2 b3 b4 b5 : Nat,
          ∃ r f, rffGetFrame 1 VSActivationReason.arAllFramesReady (pulldownTwoData 3)
              (grayClip 3) (freshGray 3 [b0, b1, b2, b3, b4, b5]) = some r
            ∧ r.frame = some f
            ∧ VSCall.mapSetInt "_FieldBased" 2 ∈ r.calls
            ∧ getProp f "_FieldBased" = some 2
            ∧ rowBytes (getPlane f 0) 2 0 = rowBytes (getPlane (grayClip 3 0) 0) 2 0
            ∧ rowBytes (getPlane f 0) 2 1 = rowBytes (getPlane (grayClip 3 1) 0) 2 1
            ∧ rowBytes (getPlane f 0) 2 2 = [b4, b5]
            ∧ rowBytes (getPlane (grayClip 3 0) 0) 2 2 = [104, 105])
    ∧ (rffCreate dgindexBits (Except.ok bottomTwo) { (bottomTwoData 3).vi with numFrames := 2 }
        = CreateResult.registered (bottomTwoData 3)
      ∧ framePair (bottomTwoData 3).fields 1
          = some ({ frame := 0, type := rffFieldType.Bottom },
                  { frame := 1, type := rffFieldType.Bottom })
      ∧ ∀ b0 b1 b2 b3 b4 b5 : Nat,
          ∃ r f, rffGetFrame 1 VSActivationReason.arAllFramesReady (bottomTwoData 3)
              (grayClip 3) (freshGray 3 [b0, b1, b2, b3, b4, b5]) = some r
            ∧ r.frame = some f
            ∧ VSCall.mapSetInt "_FieldBased" 1 ∈ r.calls
            ∧ getProp f "_FieldBased" = some 1
            ∧ rowBytes (getPlane f 0) 2 1 = rowBytes (getPlane (grayClip 3 0) 0) 2 1
            ∧ rowBytes (getPlane f 0) 2 0 = rowBytes (getPlane (grayClip 3 1) 0) 2 0
            ∧ rowBytes (getPlane f 0) 2 2 = [b4, b5]
            ∧ rowBytes (getPlane (grayClip 3 1) 0) 2 2 = [204, 205]) := by
  have hselT : selectFields (pulldownTwoData 3) 1
      = some ({ index := 2, target := { frame := 0, type := rffFieldType.Top } },
              { index := 3, target := { frame := 1, type := rffFieldType.Top } }) := by decide
  have hselB : selectFields (bottomTwoData 3) 1
      = some ({ index := 3, target := { frame := 1, type := rffFieldType.Bottom } },
              { index := 2, target := { frame := 0, type := rffFieldType.Bottom } }) := by decide
  refine ⟨⟨by decide, by decide, ?_⟩, ⟨by decide, by decide, ?_⟩⟩
  · intro b0 b1 b2 b3 b4 b5
    refine ⟨_, _, rffGetFrame_woven _ _ _ _ _ _ hselT (by decide), rfl,
      ?_, ?_, ?_, ?_, ?_, ?_⟩ <;>
      simp [rowBytes, getPlane, weaveLoop, weavePlane, setPlaneData, bitblt, memcpy,
        newVideoFrame, freshGray, grayClip, grayPlane, pulldownTwoData, List.range_succ,
        getProp, mapSetInt]
  · intro b0 b1 b2 b3 b4 b5
    refine ⟨_, _, rffGetFrame_woven _ _ _ _ _ _ hselB (by decide), rfl,
      ?_, ?_, ?_, ?_, ?_, ?_⟩ <;>
      simp [rowBytes, getPlane, weaveLoop, weavePlane, setPlaneData, bitblt, memcpy,
        newVideoFrame, freshGray, grayClip, grayPlane, bottomTwoData, List.range_succ,
        getProp, mapSetInt]

end vs4
